import Mathlib

/-!
ISO9660 driver (src/fs/iso9660.c): shallow embedding.

The embedding follows the default build of the driver (the symbol
L9660_SINGLEBUFFER is not defined): every stream owns a 2048-byte buffer,
HAVEBUFFER is constantly true and BUF(f) is the buffer of f.  The functions
of the build with L9660_SINGLEBUFFER that the comparison of the two builds
needs are embedded separately, under names beginning with sb_.

Machine integers are natural numbers; every store into a uint32_t field is
reduced modulo 2^32, and bytes are values of Fin 256.  A sector, and a stream
buffer, is a function from the byte offset to the byte stored there; the
driver only ever addresses offsets below 2048 of it on well-formed data.
The sector source is a function from the (32-bit) sector number to the
sector content, none when the read fails.
-/

namespace L9660

/-- One byte. -/
abbrev Byte := Fin 256

/-- Content of a 2048-byte sector or buffer, by byte offset. -/
abbrev Sector := Nat → Byte

/-- The read_sector callback of a mounted volume: none is a failed read. -/
abbrev Disk := Nat → Option Sector

/-- Modulus of uint32_t arithmetic. -/
def U32 : Nat := 4294967296

/-- Modelled from the spec: the enumeration l9660_status is declared in
include/iso9660.h, which is not among the sources; its members are the
status names the driver returns (the status taxonomy of the interface:
Ok, IoError, BadFormat, NotFound, NotAFile, NotADirectory). -/
inductive l9660_status where
  | L9660_OK
  | L9660_EIO
  | L9660_EBADFS
  | L9660_ENOENT
  | L9660_ENOTFILE
  | L9660_ENOTDIR
  deriving DecidableEq, Repr

open l9660_status

/-- Modelled from the spec: the struct l9660_file is declared in
include/iso9660.h, which is not among the sources; its fields are those the
driver uses (first_sector, position, length, all uint32_t, and the buffer
buf of the default build), the Stream of the data model.  The fs back
pointer is left out: one volume is modelled at a time.  A directory
l9660_dir is a struct holding just one of these (its member file). -/
structure l9660_file where
  first_sector : Nat
  position : Nat
  length : Nat
  buf : Sector

/-- Modelled from the spec: the constants L9660_SEEK_SET, L9660_SEEK_CUR and
L9660_SEEK_END are declared in include/iso9660.h, which is not among the
sources; the whence argument of l9660_seek is one constructor per case label
of the switch (the origins Start, Current, End), and SEEK_OTHER for any value
without a case. -/
inductive Whence where
  | SEEK_SET
  | SEEK_CUR
  | SEEK_END
  | SEEK_OTHER
  deriving DecidableEq, Repr

/-- The flag bit DENT_ISDIR = 1 << 1. -/
def DENT_ISDIR : Nat := 2

/-- Modelled from the spec: the type l9660_dirent is declared in
include/iso9660.h, which is not among the sources; the offsets of its fields
are those of the ISO 9660 directory record described by the data model
(length byte first, then the extended attribute length, the dual-endian
sector and size fields, the flags, the name length and the name). -/
def OFF_length : Nat := 0

/-- Modelled from the spec: offset of xattr_length in l9660_dirent. -/
def OFF_xattr_length : Nat := 1

/-- Modelled from the spec: offset of the dual-endian sector field. -/
def OFF_sector : Nat := 2

/-- Modelled from the spec: offset of the dual-endian size field. -/
def OFF_size : Nat := 10

/-- Modelled from the spec: offset of flags in l9660_dirent. -/
def OFF_flags : Nat := 25

/-- Modelled from the spec: offset of name_len in l9660_dirent. -/
def OFF_name_len : Nat := 32

/-- Modelled from the spec: offset of the name bytes in l9660_dirent. -/
def OFF_name : Nat := 33

/-- The byte of a buffer at an offset, as a number. -/
def byteAt (b : Sector) (i : Nat) : Nat := (b i).val

/-- READ32 (little-endian build) of the dual-endian field at offset p: the
macro (le[0]) | (le[1] << 8) | (le[2]) << 16 | (le[3] << 24), as the uint32_t
value every use of it is converted to. -/
def READ32 (b : Sector) (p : Nat) : Nat :=
  (byteAt b p ||| (byteAt b (p + 1) <<< 8) ||| (byteAt b (p + 2) <<< 16)
    ||| (byteAt b (p + 3) <<< 24)) % U32

/-- Field dirent->length of the record at offset off of a buffer. -/
def dirent_length (b : Sector) (off : Nat) : Nat := byteAt b (off + OFF_length)

/-- Field dirent->xattr_length. -/
def dirent_xattr_length (b : Sector) (off : Nat) : Nat := byteAt b (off + OFF_xattr_length)

/-- Field dirent->flags. -/
def dirent_flags (b : Sector) (off : Nat) : Nat := byteAt b (off + OFF_flags)

/-- Field dirent->name_len. -/
def dirent_name_len (b : Sector) (off : Nat) : Nat := byteAt b (off + OFF_name_len)

/-- Byte dirent->name[j]. -/
def dirent_name (b : Sector) (off j : Nat) : Nat := byteAt b (off + OFF_name + j)

/-- The function strchrnul of the driver on a C string (the bytes before the
terminating NUL; a zero byte inside the list ends the string as well): it
stops on the terminator, or just after the first occurrence of c. -/
def strchrnul : List Nat → Nat → List Nat
  | [], _ => []
  | x :: xs, c => if x = 0 then x :: xs else if x = c then xs else strchrnul xs c

/-- fsectoff: offset of the position inside its sector. -/
def fsectoff (f : l9660_file) : Nat := f.position % 2048

/-- fsector: index of the sector of the position inside the extent. -/
def fsector (f : l9660_file) : Nat := f.position / 2048

/-- fnextsectpos: (position + 2047) & ~2047 in uint32_t arithmetic; clearing
the low eleven bits is rounding down to a multiple of 2048. -/
def fnextsectpos (f : l9660_file) : Nat :=
  ((f.position + 2047) % U32) / 2048 * 2048

/-- aligneven: v + (v & 1). -/
def aligneven (v : Nat) : Nat := v + v % 2

/-- buffer: fetch the sector of the current position into the buffer of the
stream.  A failed read leaves the buffer as it was. -/
def buffer (disk : Disk) (f : l9660_file) : l9660_status × l9660_file :=
  match disk ((f.first_sector + f.position / 2048) % U32) with
  | none => ( L9660_EIO, f)
  | some s => (L9660_OK, { f with buf := s })

/-- prebuffer: HAVEBUFFER(f) is true in this build, so the sector is fetched
exactly when the position is on a sector boundary. -/
def prebuffer (disk : Disk) (f : l9660_file) : l9660_status × l9660_file :=
  if f.position % 2048 = 0 then buffer disk f else (L9660_OK, f)

/-- l9660_seek.  The offset is an int32_t; the stores into position are
uint32_t stores. -/
def l9660_seek (disk : Disk) (f : l9660_file) (whence : Whence) (offset : Int) :
    l9660_status × l9660_file :=
  let cursect := fsector f
  let f1 : l9660_file :=
    match whence with
    | Whence.SEEK_SET => { f with position := (offset % (U32 : Int)).toNat }
    | Whence.SEEK_CUR =>
        { f with position := (((f.position : Int) + offset) % (U32 : Int)).toNat }
    | Whence.SEEK_END =>
        { f with position := (((f.length : Int) - offset) % (U32 : Int)).toNat }
    | Whence.SEEK_OTHER => f
  if fsector f1 ≠ cursect ∧ fsectoff f1 ≠ 0 then buffer disk f1
  else (L9660_OK, f1)

/-- l9660_tell. -/
def l9660_tell (f : l9660_file) : Nat := f.position

/-- Outcome of l9660_read: the status, the stream afterwards, and, when the
call got as far as writing them, the value stored in *read and the bytes
copied to the caller. -/
structure ReadResult where
  status : l9660_status
  file : l9660_file
  read : Option Nat
  data : List Byte

/-- l9660_read.  rem is a uint16_t, the comparison with length - position is
done in uint32_t arithmetic. -/
def l9660_read (disk : Disk) (f : l9660_file) (size : Nat) : ReadResult :=
  let r := prebuffer disk f
  if r.1 ≠ L9660_OK then { status := r.1, file := r.2, read := none, data := [] }
  else
    let f1 := r.2
    let rem0 := (2048 - fsectoff f1) % 65536
    let left := (f1.length + U32 - f1.position % U32) % U32
    let rem := if rem0 > left then left % 65536 else rem0
    let size1 := if rem < size then rem else size
    { status := L9660_OK
      file := { f1 with position := (f1.position + size1) % U32 }
      read := some size1
      data := (List.range size1).map (fun j => f1.buf (fsectoff f1 + j)) }

/-- l9660_readdir.  The result holds the status, the directory stream
afterwards and the value of *pdirent afterwards: none is the null pointer,
some off is the pointer BUF(f) + off into the buffer of the stream.  The
first argument bounds the number of passes through the rebuffer label; the
outer none means the bound was reached without the call returning. -/
def l9660_readdir (disk : Disk) :
    Nat → l9660_file → Option Nat → Option (l9660_status × l9660_file × Option Nat)
  | 0, _, _ => none
  | fuel + 1, f, pdirent =>
    if f.position ≥ f.length then some (L9660_OK, f, none)
    else
      let r := prebuffer disk f
      if r.1 ≠ L9660_OK then some (r.1, r.2, pdirent)
      else
        let f1 := r.2
        if byteAt f1.buf (fsectoff f1) = 0 then
          l9660_readdir disk fuel { f1 with position := fnextsectpos f1 } pdirent
        else
          some (L9660_OK,
            { f1 with position :=
                (f1.position + aligneven (dirent_length f1.buf (fsectoff f1))) % U32 },
            some (fsectoff f1))

/-- The comparison memcmp(seg, dent->name, seglen) == 0. -/
def memcmp_name (seg : List Nat) (b : Sector) (off seglen : Nat) : Bool :=
  (List.range seglen).all (fun j => decide (seg.getD j 0 = dirent_name b off j))

/-- The inner for (;;) of openat_raw: read directory records until one passes
the three name tests.  The result is the status the loop leaves with
(L9660_OK when it breaks on a match), the directory stream and dent. -/
def openat_scan (disk : Disk) (seg : List Nat) (seglen : Nat) :
    Nat → l9660_file → Option Nat → Option (l9660_status × l9660_file × Option Nat)
  | 0, _, _ => none
  | fuel + 1, dir, dent =>
    match l9660_readdir disk (fuel + 1) dir dent with
    | none => none
    | some (rv, dir1, dent1) =>
      if rv ≠ L9660_OK then some (rv, dir1, dent1)
      else
        match dent1 with
        | none => some (L9660_ENOENT, dir1, none)
        | some off =>
          if seglen > dirent_name_len dir1.buf off then
            openat_scan disk seg seglen fuel dir1 (some off)
          else if memcmp_name seg dir1.buf off seglen = false then
            openat_scan disk seg seglen fuel dir1 (some off)
          else if dirent_name_len dir1.buf off > seglen
              ∧ dirent_name dir1.buf off seglen ≠ 59 then
            openat_scan disk seg seglen fuel dir1 (some off)
          else some (L9660_OK, dir1, some off)

/-- The objects and locals of openat_raw: the two stream objects of the
caller, whether the local pointer parent has been redirected to child, and
the local dent (an offset into the buffer of parent, or of child when
dentChild is set). -/
structure OpenState where
  child : l9660_file
  parent : l9660_file
  onChild : Bool
  dent : Option Nat
  dentChild : Bool

/-- The directory the local pointer parent designates. -/
def OpenState.dir (s : OpenState) : l9660_file :=
  if s.onChild then s.child else s.parent

/-- Store through the local pointer parent. -/
def OpenState.setDir (s : OpenState) (d : l9660_file) : OpenState :=
  if s.onChild then { s with child := d } else { s with parent := d }

/-- The buffer dent points into. -/
def OpenState.dentBuf (s : OpenState) : Sector :=
  if s.dentChild then s.child.buf else s.parent.buf

/-- The segment and its length as the matching loop uses them: seglen is
name - seg after strchrnul, and the two special names are replaced. -/
def segment_of (name : List Nat) : List Nat × Nat :=
  let seg := name
  let name1 := strchrnul name 47
  let seglen := seg.length - name1.length
  let seg1 := if seglen = 1 ∧ seg.getD 0 0 = 46 then [0] else seg
  if seglen = 2 ∧ seg1.getD 0 0 = 46 ∧ seg1.getD 1 0 = 46 then ([1], 1)
  else (seg1, seglen)

/-- The do ... while (*name) loop of openat_raw.  It leaves with a status
other than L9660_OK on an early return, and with L9660_OK when the loop
condition fails after the last segment. -/
def openat_walk (disk : Disk) :
    Nat → OpenState → List Nat → Option (l9660_status × OpenState)
  | 0, _, _ => none
  | fuel + 1, st, name =>
    let name1 := strchrnul name 47
    match openat_scan disk (segment_of name).1 (segment_of name).2 fuel st.dir st.dent with
    | none => none
    | some (rv, dir1, dent1) =>
      let st1 : OpenState :=
        { st.setDir dir1 with dent := dent1, dentChild := st.onChild }
      if rv ≠ L9660_OK then some (rv, st1)
      else
        let off := dent1.getD 0
        let st2 : OpenState :=
          { st1 with child :=
              { st1.child with
                first_sector :=
                  (READ32 dir1.buf (off + OFF_sector) + dirent_xattr_length dir1.buf off) % U32
                length := READ32 dir1.buf (off + OFF_size) % U32
                position := 0 } }
        if name1.getD 0 0 ≠ 0 ∧ dirent_flags st2.dentBuf off &&& DENT_ISDIR ≠ 0 then
          some (L9660_ENOTDIR, st2)
        else
          let st3 : OpenState := { st2 with onChild := true }
          if name1.getD 0 0 ≠ 0 then openat_walk disk fuel st3 name1
          else some (L9660_OK, st3)

/-- The function openat_raw: status, and the child and parent objects
afterwards.  The first argument bounds the loops; none means the bound was
reached. -/
def openat_raw (disk : Disk) (fuel : Nat) (child parent : l9660_file)
    (name : List Nat) (isdir : Bool) :
    Option (l9660_status × l9660_file × l9660_file) :=
  match l9660_seek disk parent Whence.SEEK_SET 0 with
  | (rv, parent1) =>
    if rv ≠ L9660_OK then some (rv, child, parent1)
    else
      match openat_walk disk fuel
          { child := child, parent := parent1, onChild := false, dent := none,
            dentChild := false } name with
      | none => none
      | some (rv1, st) =>
        if rv1 ≠ L9660_OK then some (rv1, st.child, st.parent)
        else
          let flags := dirent_flags st.dentBuf (st.dent.getD 0)
          if isdir then
            if flags &&& DENT_ISDIR = 0 then some (L9660_ENOTDIR, st.child, st.parent)
            else some (L9660_OK, st.child, st.parent)
          else
            if flags &&& DENT_ISDIR ≠ 0 then some (L9660_ENOTFILE, st.child, st.parent)
            else some (L9660_OK, st.child, st.parent)

/-- l9660_opendirat. -/
def l9660_opendirat (disk : Disk) (fuel : Nat) (dir parent : l9660_file)
    (path : List Nat) : Option (l9660_status × l9660_file × l9660_file) :=
  openat_raw disk fuel dir parent path true

/-- l9660_openat. -/
def l9660_openat (disk : Disk) (fuel : Nat) (child parent : l9660_file)
    (name : List Nat) : Option (l9660_status × l9660_file × l9660_file) :=
  openat_raw disk fuel child parent name false

/-! ## Callers and data used to state the properties -/

/-- The byte at offset p of the extent starting at sector first_sector: byte
p mod 2048 of sector first_sector + p / 2048 (sector numbers are 32-bit). -/
def extByte (disk : Disk) (first_sector p : Nat) : Byte :=
  match disk ((first_sector + p / 2048) % U32) with
  | some s => s (p % 2048)
  | none => 0

/-- The read loop of a caller: call l9660_read with the request sizes
sizes k, sizes (k + 1), ... until the position reaches the length, and
concatenate the chunks.  none: the bound on the number of calls was reached;
a failed call ends the loop with its status. -/
def read_loop (disk : Disk) (sizes : Nat → Nat) :
    Nat → Nat → l9660_file → Option (l9660_status × List Byte × l9660_file)
  | 0, _, _ => none
  | fuel + 1, k, f =>
    if f.position = f.length then some (L9660_OK, [], f)
    else
      let r := l9660_read disk f (sizes k)
      if r.status ≠ L9660_OK then some (r.status, [], r.file)
      else
        match read_loop disk sizes fuel (k + 1) r.file with
        | none => none
        | some (rv, rest, f2) => some (rv, r.data ++ rest, f2)

/-- The bytes of the record a dirent pointer designates: dirent->length bytes
from the pointer on. -/
def dirent_bytes (b : Sector) (off : Nat) : List Byte :=
  (List.range (dirent_length b off)).map (fun j => b (off + j))

/-- The enumeration loop of a caller (the loop sketched in ISO_InitFs): call
l9660_readdir until it fails or hands back the null record, copying every
record out.  The result is the list of records, the status of the last call
and the stream; none: the bound was reached. -/
def readdir_loop (disk : Disk) :
    Nat → l9660_file → Option (List (List Byte) × l9660_status × l9660_file)
  | 0, _ => none
  | fuel + 1, f =>
    match l9660_readdir disk (fuel + 1) f none with
    | none => none
    | some (rv, f1, dent) =>
      if rv ≠ L9660_OK then some ([], rv, f1)
      else
        match dent with
        | none => some ([], L9660_OK, f1)
        | some off =>
          match readdir_loop disk fuel f1 with
          | none => none
          | some (rs, rv2, f2) => some (dirent_bytes f1.buf off :: rs, rv2, f2)

/-- Number of bytes a record takes in its sector: its length rounded up to
even. -/
def slot (r : List Byte) : Nat := aligneven r.length

/-- A directory record as a list of bytes: its first byte is its length,
which is not zero. -/
def RecordOK (r : List Byte) : Prop :=
  r ≠ [] ∧ (r.getD 0 0).val = r.length

/-- The record r is stored at position p of the extent and ends in the sector
it begins in. -/
def RecordAt (disk : Disk) (first_sector p : Nat) (r : List Byte) : Prop :=
  RecordOK r ∧ p % 2048 + slot r ≤ 2048 ∧
    ∀ j, j < r.length → extByte disk first_sector (p + j) = r.getD j 0

/-- Start of the sector after the one holding position p. -/
def nextSector (p : Nat) : Nat := (p / 2048 + 1) * 2048

/-- The records rs are laid out in order from position p of the extent up to
its declared length len: each record starts where the one before ended, or,
when it is the first of a new sector, at the start of the next sector with
the unused tail of the previous sector zero-filled; after the last record
the declared length ends in the same sector, and the bytes up to it are
zero. -/
def Placed (disk : Disk) (first_sector len : Nat) : Nat → List (List Byte) → Prop
  | p, [] =>
    p ≤ len ∧ len ≤ (p + 2047) / 2048 * 2048 ∧
      ∀ q, p ≤ q → q < len → extByte disk first_sector q = 0
  | p, r :: rs =>
    (RecordAt disk first_sector p r ∧ Placed disk first_sector len (p + slot r) rs)
    ∨ (p % 2048 ≠ 0 ∧ (∀ q, p ≤ q → q < nextSector p → extByte disk first_sector q = 0)
        ∧ RecordAt disk first_sector (nextSector p) r
        ∧ Placed disk first_sector len (nextSector p + slot r) rs)

/-- A well-formed directory extent holding the records rs: the layout starts
at position 0, and the sectors of the extent lie inside the 32-bit position
range. -/
def DirExtent (disk : Disk) (first_sector len : Nat) (rs : List (List Byte)) : Prop :=
  len + 2047 < U32 ∧ Placed disk first_sector len 0 rs

/-- The sector source succeeds on every sector. -/
def Succeeds (disk : Disk) : Prop := ∀ n, ∃ s, disk n = some s

/-- The buffer of the stream holds the sector of its position whenever the
position is inside a sector (on a sector boundary the next access fetches). -/
def CacheCurrent (disk : Disk) (f : l9660_file) : Prop :=
  f.position % 2048 ≠ 0 →
    ∀ j, j < 2048 → f.buf j = extByte disk f.first_sector (f.position / 2048 * 2048 + j)

/-- Stored name of a record, as numbers. -/
def recName (r : List Byte) : List Nat :=
  ((r.drop OFF_name).take (r.getD OFF_name_len 0).val).map (fun b => b.val)

/-- Directory flag (bit 1 of the flags byte) of a record. -/
def recIsDir (r : List Byte) : Prop := (r.getD OFF_flags 0).val &&& DENT_ISDIR ≠ 0

/-- The 32-bit value of the four little-endian bytes at offset p of a
record. -/
def recRead32 (r : List Byte) (p : Nat) : Nat :=
  (r.getD p 0).val + 256 * (r.getD (p + 1) 0).val + 65536 * (r.getD (p + 2) 0).val
    + 16777216 * (r.getD (p + 3) 0).val

/-- First sector of the data a record describes: sector + xattr_length. -/
def recFirstSector (r : List Byte) : Nat :=
  (recRead32 r OFF_sector + (r.getD OFF_xattr_length 0).val) % U32

/-- Size field of a record. -/
def recSize (r : List Byte) : Nat := recRead32 r OFF_size

/-- The name of a record lies inside the record. -/
def NameInside (r : List Byte) : Prop :=
  OFF_name + (r.getD OFF_name_len 0).val ≤ r.length

/-- The stored name of r matches the segment s: it equals s, or s followed by
the separator ; (59) and a version suffix. -/
def NameMatches (s : List Nat) (r : List Byte) : Prop :=
  recName r = s ∨ ∃ suffix, recName r = s ++ 59 :: suffix

/-- The stream f of the extent (fs, len) stands at position p, with a current
buffer. -/
def AtPos (disk : Disk) (fs len : Nat) (f : l9660_file) (p : Nat) : Prop :=
  f.first_sector = fs ∧ f.length = len ∧ f.position = p ∧ CacheCurrent disk f

/-- The buffer b holds the record r at offset off. -/
def HoldsRecord (b : Sector) (off : Nat) (r : List Byte) : Prop :=
  ∀ j, j < r.length → b (off + j) = r.getD j 0

/-- The status openat_raw ends with once the last segment has matched the
record r: the directory flag of r against the kind of object wanted. -/
def finalStatus (isdir : Bool) (r : List Byte) : l9660_status :=
  if isdir then
    if (r.getD OFF_flags 0).val &&& DENT_ISDIR = 0 then L9660_ENOTDIR else L9660_OK
  else
    if (r.getD OFF_flags 0).val &&& DENT_ISDIR ≠ 0 then L9660_ENOTFILE else L9660_OK

/-- The text the first pass of the loop of openat_raw over a path compares
with the stored names: the first seglen bytes of seg. -/
def firstSegment (name : List Nat) : List Nat :=
  (segment_of name).1.take (segment_of name).2

/-! ## A sample volume -/

/-- The byte with value n mod 256. -/
def byte (n : Nat) : Byte := ⟨n % 256, Nat.mod_lt n (by decide)⟩

/-- A directory record with the given extended attribute length, sector,
size, flags and name; a pad byte follows a name of even length. -/
def mkRecord (xattr sector size flags : Nat) (name : List Nat) : List Byte :=
  ([33 + name.length + (if name.length % 2 = 0 then 1 else 0), xattr,
    sector % 256, sector / 256 % 256, sector / 65536 % 256, sector / 16777216 % 256,
    sector / 16777216 % 256, sector / 65536 % 256, sector / 256 % 256, sector % 256,
    size % 256, size / 256 % 256, size / 65536 % 256, size / 16777216 % 256,
    size / 16777216 % 256, size / 65536 % 256, size / 256 % 256, size % 256,
    0, 0, 0, 0, 0, 0, 0, flags, 0, 0, 1, 0, 0, 1, name.length]
    ++ name ++ (if name.length % 2 = 0 then [0] else [])).map byte

/-- A sector holding the given bytes, zero-filled after them. -/
def sectorOfBytes (bs : List Byte) : Sector := fun j => bs.getD j 0

/-- The all-zero buffer. -/
def zeroSector : Sector := fun _ => 0

/-- Self record of the sample root directory. -/
def exSelf : List Byte := mkRecord 0 23 2048 2 [0]

/-- Parent record of the sample root directory. -/
def exParent : List Byte := mkRecord 0 23 2048 2 [1]

/-- File README.TXT;1 of the sample root directory: sector 30, 5000 bytes. -/
def exReadme : List Byte :=
  mkRecord 0 30 5000 0 [82, 69, 65, 68, 77, 69, 46, 84, 88, 84, 59, 49]

/-- Subdirectory A of the sample root directory: sector 25. -/
def exDirA : List Byte := mkRecord 0 25 2048 2 [65]

/-- File B of the sample subdirectory A: sector 40, 10 bytes. -/
def exFileB : List Byte := mkRecord 0 40 10 0 [66]

/-- Records of the sample root directory. -/
def exRootRecords : List (List Byte) := [exSelf, exParent, exReadme, exDirA]

/-- Self record of the sample subdirectory A. -/
def exSelfA : List Byte := mkRecord 0 25 2048 2 [0]

/-- Records of the sample subdirectory A. -/
def exARecords : List (List Byte) := [exSelfA, exParent, exFileB]

/-- The sample volume: the root directory in sector 23, the directory A in
sector 25, every other sector zero. -/
def exDisk : Disk := fun n =>
  if n = 23 then some (sectorOfBytes (exSelf ++ exParent ++ exReadme ++ exDirA))
  else if n = 25 then some (sectorOfBytes (exSelfA ++ exParent ++ exFileB))
  else some zeroSector

/-- The root directory stream of the sample volume. -/
def exRoot : l9660_file :=
  { first_sector := 23, position := 0, length := 2048, buf := zeroSector }

/-- A stream object not yet opened. -/
def exBlank : l9660_file :=
  { first_sector := 0, position := 0, length := 0, buf := zeroSector }

/-- The file README.TXT;1 opened and read up to position 100. -/
def exReadmeFile : l9660_file :=
  { first_sector := 30, position := 100, length := 5000, buf := zeroSector }

/-- The file README.TXT;1 freshly opened. -/
def exReadmeFresh : l9660_file :=
  { first_sector := 30, position := 0, length := 5000, buf := zeroSector }

/-- The path README.TXT. -/
def exReadmeName : List Nat := [82, 69, 65, 68, 77, 69, 46, 84, 88, 84]

/-- A directory stream of two sectors, the second one all zero (sector 24 of
the sample volume), standing at the start of the second sector. -/
def exStuck : l9660_file :=
  { first_sector := 23, position := 2048, length := 4096, buf := zeroSector }

/-- A directory record named A/ with the directory flag set: sector 25. -/
def exDirSlash : List Byte := mkRecord 0 25 2048 2 [65, 47]

/-- A file record named F/ (directory flag clear): sector 25. -/
def exFileSlash : List Byte := mkRecord 0 25 2048 0 [70, 47]

/-- A second sample volume, whose root directory (sector 23) holds the two
records with a name ending in the separator; sector 25 is the directory A
of the first sample. -/
def exDiskSlash : Disk := fun n =>
  if n = 23 then some (sectorOfBytes (exSelf ++ exParent ++ exDirSlash ++ exFileSlash))
  else if n = 25 then some (sectorOfBytes (exSelfA ++ exParent ++ exFileB))
  else some zeroSector

/-- The state openat_raw is in after its loop matched the record A of the
sample root directory. -/
def exWalkA : OpenState :=
  { child := { first_sector := 25, position := 0, length := 2048, buf := zeroSector }
    parent :=
      { first_sector := 23, position := 148, length := 2048
        buf := sectorOfBytes (exSelf ++ exParent ++ exReadme ++ exDirA) }
    onChild := true
    dent := some 114
    dentChild := false }

/-- The sample root directory declared with a length of two sectors. -/
def exRootLong : l9660_file :=
  { first_sector := 23, position := 0, length := 4096, buf := zeroSector }

/-- The stream exRootLong once its first sector is buffered, at position p. -/
def exLongAt (p : Nat) : l9660_file :=
  { first_sector := 23, position := p, length := 4096,
    buf := sectorOfBytes (exSelf ++ exParent ++ exReadme ++ exDirA) }

/-! ## Mounting, root directory, probe, traced seek -/

/-- Modelled from the spec: the struct l9660_fs is declared in
include/iso9660.h, which is not among the sources; of the VolumeSession it
describes the model keeps the member pvd, the 2048-byte slot in which the
default build retains the sector of the primary volume descriptor (the read
callback is the disk argument of the operations). -/
structure l9660_fs where
  pvd : Sector

/-- Modelled from the spec: offset of hdr.type in a volume descriptor (the
discriminant byte at offset 0). -/
def OFF_vdesc_type : Nat := 0

/-- Modelled from the spec: offset of hdr.magic in a volume descriptor (the
5-byte magic at offset 1). -/
def OFF_vdesc_magic : Nat := 1

/-- Modelled from the spec: offset of root_dir_ent in l9660_vdesc_primary,
declared in the absent header; it is the offset of the root directory record
in an ISO 9660 primary volume descriptor. -/
def OFF_root_dir_ent : Nat := 156

/-- The test memcmp(hdr.magic, "CD001", 5) == 0 on a descriptor sector. -/
def magic_ok (b : Sector) : Bool :=
  decide (byteAt b (OFF_vdesc_magic + 0) = 67 ∧ byteAt b (OFF_vdesc_magic + 1) = 68 ∧
    byteAt b (OFF_vdesc_magic + 2) = 48 ∧ byteAt b (OFF_vdesc_magic + 3) = 48 ∧
    byteAt b (OFF_vdesc_magic + 4) = 49)

/-- The for (;;) loop of l9660_openfs, with the local idx as an argument: no
statement of the loop body assigns to idx, so the next pass gets the same
value.  The first argument bounds the number of passes; none means the bound
was reached.  A failed read leaves the slot as it was. -/
def l9660_openfs_loop (disk : Disk) :
    Nat → l9660_fs → Nat → Option (l9660_status × l9660_fs)
  | 0, _, _ => none
  | fuel + 1, fs, idx =>
    match disk idx with
    | none => some ( L9660_EIO, fs)
    | some s =>
      let fs1 : l9660_fs := { fs with pvd := s }
      if magic_ok fs1.pvd = false then some (L9660_EBADFS, fs1)
      else if byteAt fs1.pvd OFF_vdesc_type = 1 then some (L9660_OK, fs1)
      else if byteAt fs1.pvd OFF_vdesc_type = 255 then some (L9660_EBADFS, fs1)
      else l9660_openfs_loop disk fuel fs1 idx

/-- l9660_openfs (default build): the scan starts with idx = 0x10. -/
def l9660_openfs (disk : Disk) (fuel : Nat) (fs : l9660_fs) :
    Option (l9660_status × l9660_fs) :=
  l9660_openfs_loop disk fuel fs 16

/-- l9660_fs_open_root (default build): dirent is the root_dir_ent member of
the retained descriptor. -/
def l9660_fs_open_root (dir : l9660_file) (fs : l9660_fs) : l9660_status × l9660_file :=
  (L9660_OK,
    { dir with
      first_sector := READ32 fs.pvd (OFF_root_dir_ent + OFF_sector)
      length := READ32 fs.pvd (OFF_root_dir_ent + OFF_size)
      position := 0 })

/-- ISO_Check: heap is the content of the block kmalloc hands out, which is
what the buffer holds when CDROM_Read fails (its result is not looked at). -/
def ISO_Check (disk : Disk) (heap : Sector) : Bool :=
  let buffer : Sector :=
    match disk 16 with
    | some s => s
    | none => heap
  decide (byteAt buffer 0 = 1 ∧ byteAt buffer 1 = 67 ∧ byteAt buffer 2 = 68 ∧
    byteAt buffer 3 = 48 ∧ byteAt buffer 4 = 48 ∧ byteAt buffer 5 = 49)

/-- The function buffer together with the sector numbers it hands to the
sector source: one call, for the sector of the current position. -/
def buffer_traced (disk : Disk) (f : l9660_file) : l9660_status × l9660_file × List Nat :=
  match disk ((f.first_sector + f.position / 2048) % U32) with
  | none => ( L9660_EIO, f, [(f.first_sector + f.position / 2048) % U32])
  | some s => (L9660_OK, { f with buf := s }, [(f.first_sector + f.position / 2048) % U32])

/-- l9660_seek together with the sector numbers handed to the sector source
during the call, in order. -/
def l9660_seek_traced (disk : Disk) (f : l9660_file) (whence : Whence) (offset : Int) :
    l9660_status × l9660_file × List Nat :=
  let cursect := fsector f
  let f1 : l9660_file :=
    match whence with
    | Whence.SEEK_SET => { f with position := (offset % (U32 : Int)).toNat }
    | Whence.SEEK_CUR =>
        { f with position := (((f.position : Int) + offset) % (U32 : Int)).toNat }
    | Whence.SEEK_END =>
        { f with position := (((f.length : Int) - offset) % (U32 : Int)).toNat }
    | Whence.SEEK_OTHER => f
  if fsector f1 ≠ cursect ∧ fsectoff f1 ≠ 0 then buffer_traced disk f1
  else (L9660_OK, f1, [])

/-! ## The build with L9660_SINGLEBUFFER -/

/-- The stream object of the build with L9660_SINGLEBUFFER: it has no buffer
of its own. -/
structure sb_file where
  first_sector : Nat
  position : Nat
  length : Nat

/-- The globals of the build with L9660_SINGLEBUFFER: the shared buffer gbuf
and last_file, the stream last served (none is the null pointer); a stream
is named by a number standing for its address. -/
structure sb_globals where
  gbuf : Sector
  last_file : Option Nat

/-- The function buffer of the build with L9660_SINGLEBUFFER, called for the
stream f at address id: last_file is set before the read. -/
def sb_buffer (disk : Disk) (g : sb_globals) (id : Nat) (f : sb_file) :
    l9660_status × sb_globals :=
  match disk ((f.first_sector + f.position / 2048) % U32) with
  | none => ( L9660_EIO, { g with last_file := some id })
  | some s => (L9660_OK, { gbuf := s, last_file := some id })

/-- The function prebuffer of the build with L9660_SINGLEBUFFER: HAVEBUFFER(f)
is f == last_file. -/
def sb_prebuffer (disk : Disk) (g : sb_globals) (id : Nat) (f : sb_file) :
    l9660_status × sb_globals :=
  if ¬ (g.last_file = some id) ∨ f.position % 2048 = 0 then sb_buffer disk g id f
  else (L9660_OK, g)

/-- The function l9660_seek of the build with L9660_SINGLEBUFFER. -/
def sb_seek (disk : Disk) (g : sb_globals) (id : Nat) (f : sb_file) (whence : Whence)
    (offset : Int) : l9660_status × sb_file × sb_globals :=
  let cursect := f.position / 2048
  let f1 : sb_file :=
    match whence with
    | Whence.SEEK_SET => { f with position := (offset % (U32 : Int)).toNat }
    | Whence.SEEK_CUR =>
        { f with position := (((f.position : Int) + offset) % (U32 : Int)).toNat }
    | Whence.SEEK_END =>
        { f with position := (((f.length : Int) - offset) % (U32 : Int)).toNat }
    | Whence.SEEK_OTHER => f
  if f1.position / 2048 ≠ cursect ∧ f1.position % 2048 ≠ 0 then
    ((sb_buffer disk g id f1).1, f1, (sb_buffer disk g id f1).2)
  else (L9660_OK, f1, g)

/-- Outcome of l9660_read in the build with L9660_SINGLEBUFFER. -/
structure sb_ReadResult where
  status : l9660_status
  file : sb_file
  globals : sb_globals
  read : Option Nat
  data : List Byte

/-- The function l9660_read of the build with L9660_SINGLEBUFFER: BUF(f) is
gbuf. -/
def sb_read (disk : Disk) (g : sb_globals) (id : Nat) (f : sb_file) (size : Nat) :
    sb_ReadResult :=
  let r := sb_prebuffer disk g id f
  if r.1 ≠ L9660_OK then { status := r.1, file := f, globals := r.2, read := none, data := [] }
  else
    let g1 := r.2
    let rem0 := (2048 - f.position % 2048) % 65536
    let left := (f.length + U32 - f.position % U32) % U32
    let rem := if rem0 > left then left % 65536 else rem0
    let size1 := if rem < size then rem else size
    { status := L9660_OK
      file := { f with position := (f.position + size1) % U32 }
      globals := g1
      read := some size1
      data := (List.range size1).map (fun j => g1.gbuf (f.position % 2048 + j)) }

/-! ## The operations with their sector-source calls traced -/

/-- The function prebuffer together with the sector numbers handed to the
sector source. -/
def prebuffer_traced (disk : Disk) (f : l9660_file) : l9660_status × l9660_file × List Nat :=
  if f.position % 2048 = 0 then buffer_traced disk f else (L9660_OK, f, [])

/-- l9660_read together with the sector numbers handed to the sector source
during the call, in order. -/
def l9660_read_traced (disk : Disk) (f : l9660_file) (size : Nat) : ReadResult × List Nat :=
  let r := prebuffer_traced disk f
  if r.1 ≠ L9660_OK then
    ({ status := r.1, file := r.2.1, read := none, data := [] }, r.2.2)
  else
    let f1 := r.2.1
    let rem0 := (2048 - fsectoff f1) % 65536
    let left := (f1.length + U32 - f1.position % U32) % U32
    let rem := if rem0 > left then left % 65536 else rem0
    let size1 := if rem < size then rem else size
    ({ status := L9660_OK
       file := { f1 with position := (f1.position + size1) % U32 }
       read := some size1
       data := (List.range size1).map (fun j => f1.buf (fsectoff f1 + j)) }, r.2.2)

/-- l9660_readdir together with the sector numbers handed to the sector
source during the call, in order; the trace is also given when the bound on
the passes was reached. -/
def l9660_readdir_traced (disk : Disk) :
    Nat → l9660_file → Option Nat →
      Option (l9660_status × l9660_file × Option Nat) × List Nat
  | 0, _, _ => (none, [])
  | fuel + 1, f, pdirent =>
    if f.position ≥ f.length then (some (L9660_OK, f, none), [])
    else
      let r := prebuffer_traced disk f
      if r.1 ≠ L9660_OK then (some (r.1, r.2.1, pdirent), r.2.2)
      else
        let f1 := r.2.1
        if byteAt f1.buf (fsectoff f1) = 0 then
          let t := l9660_readdir_traced disk fuel { f1 with position := fnextsectpos f1 } pdirent
          (t.1, r.2.2 ++ t.2)
        else
          (some (L9660_OK,
            { f1 with position :=
                (f1.position + aligneven (dirent_length f1.buf (fsectoff f1))) % U32 },
            some (fsectoff f1)), r.2.2)

/-- The inner loop of openat_raw together with the sector numbers handed to
the sector source, in order. -/
def openat_scan_traced (disk : Disk) (seg : List Nat) (seglen : Nat) :
    Nat → l9660_file → Option Nat →
      Option (l9660_status × l9660_file × Option Nat) × List Nat
  | 0, _, _ => (none, [])
  | fuel + 1, dir, dent =>
    let t := l9660_readdir_traced disk (fuel + 1) dir dent
    match t.1 with
    | none => (none, t.2)
    | some (rv, dir1, dent1) =>
      if rv ≠ L9660_OK then (some (rv, dir1, dent1), t.2)
      else
        match dent1 with
        | none => (some (L9660_ENOENT, dir1, none), t.2)
        | some off =>
          if seglen > dirent_name_len dir1.buf off then
            ((openat_scan_traced disk seg seglen fuel dir1 (some off)).1,
              t.2 ++ (openat_scan_traced disk seg seglen fuel dir1 (some off)).2)
          else if memcmp_name seg dir1.buf off seglen = false then
            ((openat_scan_traced disk seg seglen fuel dir1 (some off)).1,
              t.2 ++ (openat_scan_traced disk seg seglen fuel dir1 (some off)).2)
          else if dirent_name_len dir1.buf off > seglen
              ∧ dirent_name dir1.buf off seglen ≠ 59 then
            ((openat_scan_traced disk seg seglen fuel dir1 (some off)).1,
              t.2 ++ (openat_scan_traced disk seg seglen fuel dir1 (some off)).2)
          else (some (L9660_OK, dir1, some off), t.2)

/-- The segment loop of openat_raw together with the sector numbers handed
to the sector source, in order. -/
def openat_walk_traced (disk : Disk) :
    Nat → OpenState → List Nat → Option (l9660_status × OpenState) × List Nat
  | 0, _, _ => (none, [])
  | fuel + 1, st, name =>
    let name1 := strchrnul name 47
    let t := openat_scan_traced disk (segment_of name).1 (segment_of name).2 fuel st.dir st.dent
    match t.1 with
    | none => (none, t.2)
    | some (rv, dir1, dent1) =>
      let st1 : OpenState :=
        { st.setDir dir1 with dent := dent1, dentChild := st.onChild }
      if rv ≠ L9660_OK then (some (rv, st1), t.2)
      else
        let off := dent1.getD 0
        let st2 : OpenState :=
          { st1 with child :=
              { st1.child with
                first_sector :=
                  (READ32 dir1.buf (off + OFF_sector) + dirent_xattr_length dir1.buf off) % U32
                length := READ32 dir1.buf (off + OFF_size) % U32
                position := 0 } }
        if name1.getD 0 0 ≠ 0 ∧ dirent_flags st2.dentBuf off &&& DENT_ISDIR ≠ 0 then
          (some (L9660_ENOTDIR, st2), t.2)
        else
          let st3 : OpenState := { st2 with onChild := true }
          if name1.getD 0 0 ≠ 0 then
            ((openat_walk_traced disk fuel st3 name1).1,
              t.2 ++ (openat_walk_traced disk fuel st3 name1).2)
          else (some (L9660_OK, st3), t.2)

/-- The function openat_raw together with the sector numbers handed to the
sector source during the call, in order. -/
def openat_raw_traced (disk : Disk) (fuel : Nat) (child parent : l9660_file)
    (name : List Nat) (isdir : Bool) :
    Option (l9660_status × l9660_file × l9660_file) × List Nat :=
  let s := l9660_seek_traced disk parent Whence.SEEK_SET 0
  if s.1 ≠ L9660_OK then (some (s.1, child, s.2.1), s.2.2)
  else
    let w := openat_walk_traced disk fuel
      { child := child, parent := s.2.1, onChild := false, dent := none,
        dentChild := false } name
    match w.1 with
    | none => (none, s.2.2 ++ w.2)
    | some (rv1, st) =>
      if rv1 ≠ L9660_OK then (some (rv1, st.child, st.parent), s.2.2 ++ w.2)
      else
        let flags := dirent_flags st.dentBuf (st.dent.getD 0)
        if isdir then
          if flags &&& DENT_ISDIR = 0 then
            (some (L9660_ENOTDIR, st.child, st.parent), s.2.2 ++ w.2)
          else (some (L9660_OK, st.child, st.parent), s.2.2 ++ w.2)
        else
          if flags &&& DENT_ISDIR ≠ 0 then
            (some (L9660_ENOTFILE, st.child, st.parent), s.2.2 ++ w.2)
          else (some (L9660_OK, st.child, st.parent), s.2.2 ++ w.2)

/-- l9660_opendirat with its sector-source calls traced. -/
def l9660_opendirat_traced (disk : Disk) (fuel : Nat) (dir parent : l9660_file)
    (path : List Nat) : Option (l9660_status × l9660_file × l9660_file) × List Nat :=
  openat_raw_traced disk fuel dir parent path true

/-- l9660_openat with its sector-source calls traced. -/
def l9660_openat_traced (disk : Disk) (fuel : Nat) (child parent : l9660_file)
    (name : List Nat) : Option (l9660_status × l9660_file × l9660_file) × List Nat :=
  openat_raw_traced disk fuel child parent name false

/-- Some call of the trace was reported as failed by the sector source. -/
def HasFailure (disk : Disk) (log : List Nat) : Prop := ∃ n ∈ log, disk n = none

/-- The last call of the trace failed and every call before it succeeded. -/
def FailsLast (disk : Disk) (log : List Nat) : Prop :=
  ∃ init n, log = init ++ [n] ∧ (∀ m ∈ init, disk m ≠ none) ∧ disk n = none

/-- A trace and the status it ended with (none while the call has not
returned) obey the propagation rule: either no call failed, or the call has
returned L9660_EIO and the failed call is the last one made. -/
def Propagates (disk : Disk) (rv : Option l9660_status) (log : List Nat) : Prop :=
  (∀ m ∈ log, disk m ≠ none) ∨ (rv = some L9660_EIO ∧ FailsLast disk log)

/-! ## More sample data -/

/-- A primary volume descriptor (type 1, magic CD001) whose root directory
record describes the extent at sector 23 of 4096 bytes. -/
def exPvd : Sector :=
  sectorOfBytes (([1, 67, 68, 48, 48, 49, 1] ++ List.replicate 149 0).map byte
    ++ mkRecord 0 23 4096 2 [0])

/-- A boot record descriptor: type 0, magic CD001. -/
def exBootRecord : Sector := sectorOfBytes ([0, 67, 68, 48, 48, 49, 1].map byte)

/-- The sample volume with the primary volume descriptor in sector 16. -/
def exVolume : Disk := fun n => if n = 16 then some exPvd else exDisk n

/-- The sample volume with a boot record in sector 16 and the primary volume
descriptor in sector 17. -/
def exVolumeBoot : Disk := fun n =>
  if n = 16 then some exBootRecord else if n = 17 then some exPvd else exDisk n

/-- A session object before mounting. -/
def exFs : l9660_fs := { pvd := zeroSector }

/-- A sector source that succeeds on sector 30 only. -/
def exDiskOnly30 : Disk := fun n => if n = 30 then some zeroSector else none

/-- A stream whose extent is the single sector 30, standing at its end. -/
def exAtEnd : l9660_file :=
  { first_sector := 30, position := 2048, length := 2048, buf := zeroSector }

/-- A freshly derived stream over the two sectors 24 (all zero) and 25. -/
def exTwoSectors : l9660_file :=
  { first_sector := 24, position := 0, length := 4096, buf := zeroSector }

/-- The sample root directory declared with a length of 150 bytes, after its
four records have been read. -/
def exShortDir : l9660_file :=
  { first_sector := 23, position := 148, length := 150,
    buf := sectorOfBytes (exSelf ++ exParent ++ exReadme ++ exDirA) }

/-- The stream exTwoSectors in the build with L9660_SINGLEBUFFER. -/
def exSbTwoSectors : sb_file := { first_sector := 24, position := 0, length := 4096 }

/-- A stream over sector 23 in the build with L9660_SINGLEBUFFER. -/
def exSbRoot : sb_file := { first_sector := 23, position := 0, length := 2048 }

/-- The globals of the build with L9660_SINGLEBUFFER after mounting. -/
def exSbGlobals : sb_globals := { gbuf := zeroSector, last_file := none }

/-- Default build: read 2048 bytes of the stream over sectors 24 and 25, read
4 bytes of a second stream over sector 23, seek the first stream to 2050 and
read 4 bytes of it.  The result lists the four statuses and the bytes of the
last read. -/
def exRunPerStream : List l9660_status × List Byte :=
  let r1 := l9660_read exDisk exTwoSectors 2048
  let r2 := l9660_read exDisk exRoot 4
  let r3 := l9660_seek exDisk r1.file Whence.SEEK_SET 2050
  let r4 := l9660_read exDisk r3.2 4
  ([r1.status, r2.status, r3.1, r4.status], r4.data)

/-- The same calls in the build with L9660_SINGLEBUFFER; the first stream has
the address 1, the second the address 2. -/
def exRunShared : List l9660_status × List Byte :=
  let r1 := sb_read exDisk exSbGlobals 1 exSbTwoSectors 2048
  let r2 := sb_read exDisk r1.globals 2 exSbRoot 4
  let r3 := sb_seek exDisk r2.globals 1 r1.file Whence.SEEK_SET 2050
  let r4 := sb_read exDisk r3.2.2 1 r3.2.1 4
  ([r1.status, r2.status, r3.1, r4.status], r4.data)

/-- The sample volume with a sector source that fails on sector 24. -/
def exDiskNo24 : Disk := fun n => if n = 24 then none else exDisk n

/-- A directory stream over the sectors 23, 24 and 25 of the sample volume. -/
def exThreeSectors : l9660_file :=
  { first_sector := 23, position := 0, length := 6144, buf := zeroSector }

/-- The stream exThreeSectors after one call of l9660_readdir (which buffers
sector 23), then l9660_seek to position 4096 and l9660_seek to position
4164, offset 68 of sector 25. -/
def exThreeSought : Option l9660_file :=
  (l9660_readdir exDisk 1 exThreeSectors none).map (fun x =>
    (l9660_seek exDisk (l9660_seek exDisk x.2.1 Whence.SEEK_SET 4096).2 Whence.SEEK_SET 4164).2)

/-- The state openat_raw enters its loop in, for the stream object exBlank and
the sample root directory. -/
def exWalkStart : OpenState :=
  { child := exBlank, parent := exRoot, onChild := false, dent := none, dentChild := false }

/-- The state the loop of openat_raw is in after its first pass over the path
F/B from the root directory of the second sample volume. -/
def exWalkF : OpenState :=
  { child := { first_sector := 25, position := 0, length := 2048, buf := zeroSector }
    parent :=
      { first_sector := 23, position := 140, length := 2048
        buf := sectorOfBytes (exSelf ++ exParent ++ exDirSlash ++ exFileSlash) }
    onChild := true
    dent := some 104
    dentChild := false }

/-! ## Lemmas -/

theorem prebuffer_ok (disk : Disk) (hs : Succeeds disk) (f : l9660_file) :
    (prebuffer disk f).1 = L9660_OK ∧ (prebuffer disk f).2.position = f.position ∧
    (prebuffer disk f).2.first_sector = f.first_sector ∧
    (prebuffer disk f).2.length = f.length := by
  unfold prebuffer buffer
  obtain ⟨s, hsec⟩ := hs ((f.first_sector + f.position / 2048) % U32)
  split
  · rw [hsec]; simp
  · simp

theorem extByte_sector (disk : Disk) (fs p j : Nat) (s : Sector)
    (hsec : disk ((fs + p / 2048) % U32) = some s) (hj : j < 2048) :
    extByte disk fs (p / 2048 * 2048 + j) = s j := by
  unfold extByte
  have h1 : (p / 2048 * 2048 + j) / 2048 = p / 2048 := by omega
  have h2 : (p / 2048 * 2048 + j) % 2048 = j := by omega
  rw [h1, h2, hsec]

theorem prebuffer_current (disk : Disk) (hs : Succeeds disk) (f : l9660_file)
    (hc : CacheCurrent disk f) (j : Nat) (hj : j < 2048) :
    (prebuffer disk f).2.buf j
      = extByte disk f.first_sector (f.position / 2048 * 2048 + j) := by
  unfold prebuffer buffer
  obtain ⟨s, hsec⟩ := hs ((f.first_sector + f.position / 2048) % U32)
  split
  · rw [hsec]; simp only
    exact (extByte_sector disk _ _ j s hsec hj).symm
  · rename_i h
    exact hc h j hj


theorem slot_bounds (r : List Byte) (h : RecordOK r) : 2 ≤ slot r ∧ slot r ≤ 256 := by
  obtain ⟨h1, h2⟩ := h
  have h3 : 0 < r.length := List.length_pos.mpr h1
  have h4 := (r.getD 0 0).isLt
  unfold slot aligneven
  omega

theorem Placed_le (disk : Disk) (fs len : Nat) (rs : List (List Byte)) :
    ∀ p, Placed disk fs len p rs → p ≤ len := by
  induction rs with
  | nil => intro p h; exact h.1
  | cons r rs ih =>
    intro p h
    rcases h with ⟨_, h2⟩ | ⟨_, _, _, h2⟩
    · have := ih _ h2; omega
    · have := ih _ h2; unfold nextSector at this; omega

/-- One call of l9660_readdir on a stream standing on a record returns that record and leaves the stream just after it. -/
theorem readdir_here (disk : Disk) (hs : Succeeds disk) (fs len : Nat) (hlen : len < U32)
    (f : l9660_file) (p : Nat) (r : List Byte) (hat : AtPos disk fs len f p)
    (hr : RecordAt disk fs p r) (hle : p + slot r ≤ len) (fuel : Nat) (pd : Option Nat) :
    ∃ f2, l9660_readdir disk (fuel + 1) f pd = some (L9660_OK, f2, some (p % 2048)) ∧
      AtPos disk fs len f2 (p + slot r) ∧
      ∀ j, j < 2048 → f2.buf j = extByte disk fs (p / 2048 * 2048 + j) := by
  obtain ⟨hfs, hl, hp, hc⟩ := hat
  obtain ⟨hok, hfit, hbytes⟩ := hr
  obtain ⟨h1, h2, h3, h4⟩ := prebuffer_ok disk hs f
  have hb := prebuffer_current disk hs f hc
  have hsl := slot_bounds r hok
  have hlen0 : 0 < r.length := List.length_pos.mpr hok.1
  have hbyte : (prebuffer disk f).2.buf (p % 2048) = r.getD 0 0 := by
    rw [hb _ (Nat.mod_lt _ (by norm_num)), hfs, hp]
    have : p / 2048 * 2048 + p % 2048 = p := by omega
    rw [this]
    exact hbytes 0 hlen0
  have hdl : dirent_length (prebuffer disk f).2.buf (p % 2048) = r.length := by
    unfold dirent_length byteAt OFF_length
    rw [Nat.add_zero, hbyte]; exact hok.2
  refine ⟨{ (prebuffer disk f).2 with position := p + slot r }, ?_, ?_, ?_⟩
  · rw [l9660_readdir]
    have hnot : ¬ (p ≥ f.length) := by omega
    simp only [hnot, if_false, h1, ne_eq, not_true_eq_false, fsectoff, h2, hp]
    have hnz : ¬ (byteAt (prebuffer disk f).2.buf (p % 2048) = 0) := by
      unfold byteAt; rw [hbyte, hok.2]; omega
    simp only [hnz, if_false, hdl]
    have : (p + aligneven r.length) % U32 = p + slot r := by
      unfold slot at *; unfold U32 at *; omega
    rw [this]
  · refine ⟨by simpa using h3.trans hfs, by simpa using h4.trans hl, rfl, ?_⟩
    intro hne j hj
    simp only at hne ⊢
    rw [hb j hj, h3, hp]
    have : (p + slot r) / 2048 = p / 2048 := by omega
    rw [this]
  · intro j hj
    simp only
    rw [hb j hj, hfs, hp]


theorem fnextsectpos_eq (f : l9660_file) (h : f.position % 2048 ≠ 0)
    (hb : f.position + 2047 < U32) : fnextsectpos f = nextSector f.position := by
  unfold fnextsectpos nextSector
  rw [Nat.mod_eq_of_lt hb]
  omega

/-- One call of l9660_readdir in a laid-out directory with a record left returns the next record, skipping a zero-filled sector tail if need be. -/
theorem readdir_next (disk : Disk) (hs : Succeeds disk) (fs len : Nat) (hlen : len + 2047 < U32)
    (f : l9660_file) (p : Nat) (r : List Byte) (rs : List (List Byte))
    (hat : AtPos disk fs len f p) (hpl : Placed disk fs len p (r :: rs))
    (fuel : Nat) (pd : Option Nat) :
    ∃ f2 q, l9660_readdir disk (fuel + 2) f pd = some (L9660_OK, f2, some (q % 2048)) ∧
      AtPos disk fs len f2 (q + slot r) ∧ RecordAt disk fs q r ∧
      Placed disk fs len (q + slot r) rs ∧
      ∀ j, j < 2048 → f2.buf j = extByte disk fs (q / 2048 * 2048 + j) := by
  have hlen1 : len < U32 := by omega
  rcases hpl with ⟨hr, hrest⟩ | ⟨hne, hzero, hr, hrest⟩
  · have hle := Placed_le disk fs len rs _ hrest
    obtain ⟨f2, h1, h2, h3⟩ := readdir_here disk hs fs len hlen1 f p r hat hr hle (fuel + 1) pd
    exact ⟨f2, p, h1, h2, hr, hrest, h3⟩
  · have hle := Placed_le disk fs len rs _ hrest
    obtain ⟨hfs, hl, hp, hc⟩ := hat
    obtain ⟨h1, h2, h3, h4⟩ := prebuffer_ok disk hs f
    have hb := prebuffer_current disk hs f hc
    have hsl := slot_bounds r hr.1
    have hns : p < nextSector p ∧ nextSector p % 2048 = 0 ∧ nextSector p ≤ p + 2047 := by
      unfold nextSector; omega
    have hbyte : (prebuffer disk f).2.buf (p % 2048) = 0 := by
      rw [hb _ (Nat.mod_lt _ (by norm_num)), hfs, hp]
      have : p / 2048 * 2048 + p % 2048 = p := by omega
      rw [this]
      exact hzero p (le_refl _) hns.1
    have hat2 : AtPos disk fs len
        { (prebuffer disk f).2 with position := nextSector p } (nextSector p) := by
      refine ⟨by simpa using h3.trans hfs, by simpa using h4.trans hl, rfl, ?_⟩
      intro hne2
      exact absurd hns.2.1 hne2
    obtain ⟨f2, h5, h6, h7⟩ :=
      readdir_here disk hs fs len hlen1 _ (nextSector p) r hat2 hr hle fuel pd
    refine ⟨f2, nextSector p, ?_, h6, hr, hrest, h7⟩
    rw [l9660_readdir]
    have hnot : ¬ (p ≥ f.length) := by omega
    have hz : byteAt (prebuffer disk f).2.buf (p % 2048) = 0 := by
      unfold byteAt; rw [hbyte]; rfl
    have hnx : fnextsectpos (prebuffer disk f).2 = nextSector p := by
      rw [fnextsectpos_eq _ (by rw [h2, hp]; exact hne) (by rw [h2, hp]; omega), h2, hp]
    simp only [hnot, if_false, h1, ne_eq, not_true_eq_false, fsectoff, h2, hp, hz, if_true, hnx]
    exact h5

/-- After the last record of a laid-out directory l9660_readdir returns the null record with the position at or past the length. -/
theorem readdir_end (disk : Disk) (hs : Succeeds disk) (fs len : Nat) (hlen : len + 2047 < U32)
    (f : l9660_file) (p : Nat) (hat : AtPos disk fs len f p) (hpl : Placed disk fs len p [])
    (fuel : Nat) (pd : Option Nat) :
    ∃ f2, l9660_readdir disk (fuel + 2) f pd = some (L9660_OK, f2, none) ∧
      f2.length ≤ f2.position := by
  obtain ⟨hfs, hl, hp, hc⟩ := hat
  obtain ⟨hple, hhi, hzero⟩ := hpl
  by_cases hge : p ≥ len
  · refine ⟨f, ?_, by omega⟩
    rw [l9660_readdir]
    have : f.position ≥ f.length := by omega
    simp only [this, if_true]
  · obtain ⟨h1, h2, h3, h4⟩ := prebuffer_ok disk hs f
    have hb := prebuffer_current disk hs f hc
    have hne : p % 2048 ≠ 0 := by omega
    have hbyte : (prebuffer disk f).2.buf (p % 2048) = 0 := by
      rw [hb _ (Nat.mod_lt _ (by norm_num)), hfs, hp]
      have : p / 2048 * 2048 + p % 2048 = p := by omega
      rw [this]
      exact hzero p (le_refl _) (by omega)
    have hz : byteAt (prebuffer disk f).2.buf (p % 2048) = 0 := by
      unfold byteAt; rw [hbyte]; rfl
    have hnx : fnextsectpos (prebuffer disk f).2 = nextSector p := by
      rw [fnextsectpos_eq _ (by rw [h2, hp]; exact hne) (by rw [h2, hp]; omega), h2, hp]
    refine ⟨{ (prebuffer disk f).2 with position := nextSector p }, ?_, ?_⟩
    · rw [l9660_readdir]
      have hnot : ¬ (p ≥ f.length) := by omega
      simp only [hnot, if_false, h1, ne_eq, not_true_eq_false, fsectoff, h2, hp, hz, if_true, hnx]
      rw [l9660_readdir]
      have : nextSector p ≥ (prebuffer disk f).2.length := by
        rw [h4, hl]; unfold nextSector; omega
      simp only [ge_iff_le] at this ⊢
      simp only [this, if_true]
    · simp only [h4, hl]; unfold nextSector; omega


theorem list_take_eq_of_getD (N seg : List Nat) (hle : seg.length ≤ N.length)
    (h : ∀ j, j < seg.length → seg.getD j 0 = N.getD j 0) : N.take seg.length = seg := by
  apply List.ext_getElem
  · simp [List.length_take]; omega
  · intro i h1 h2
    rw [List.getElem_take]
    have := h i h2
    rw [List.getD_eq_getElem _ _ h2, List.getD_eq_getElem _ _ (by omega)] at this
    exact this.symm

theorem name_tests_iff (N seg : List Nat) :
    (¬ (seg.length > N.length) ∧ (∀ j, j < seg.length → seg.getD j 0 = N.getD j 0) ∧
      ¬ (N.length > seg.length ∧ N.getD seg.length 0 ≠ 59))
    ↔ (N = seg ∨ ∃ suffix, N = seg ++ 59 :: suffix) := by
  constructor
  · rintro ⟨h1, h2, h3⟩
    have hle : seg.length ≤ N.length := by omega
    have ht := list_take_eq_of_getD N seg hle h2
    by_cases hlt : seg.length < N.length
    · right
      refine ⟨N.drop (seg.length + 1), ?_⟩
      have h59 : N.getD seg.length 0 = 59 := by
        by_contra hc
        exact h3 ⟨hlt, hc⟩
      rw [List.getD_eq_getElem _ _ hlt] at h59
      have hd : N.drop seg.length = 59 :: N.drop (seg.length + 1) := by
        rw [List.drop_eq_getElem_cons hlt, h59]
      calc N = N.take seg.length ++ N.drop seg.length := (List.take_append_drop _ _).symm
        _ = seg ++ 59 :: N.drop (seg.length + 1) := by rw [ht, hd]
    · left
      have : N.length = seg.length := by omega
      rw [← ht, ← this, List.take_length]
  · rintro (h | ⟨suffix, h⟩)
    · subst h
      exact ⟨by omega, fun _ _ => rfl, by omega⟩
    · subst h
      refine ⟨by simp, ?_, ?_⟩
      · intro j hj
        rw [List.getD_append _ _ _ _ hj]
      · rintro ⟨_, h2⟩
        apply h2
        rw [List.getD_append_right _ _ _ _ (le_refl _)]
        simp

theorem recName_length (r : List Byte) (h : NameInside r) :
    (recName r).length = (r.getD OFF_name_len 0).val := by
  unfold recName NameInside at *
  simp only [List.length_map, List.length_take, List.length_drop]
  omega

theorem recName_getD (r : List Byte) (h : NameInside r) (j : Nat)
    (hj : j < (r.getD OFF_name_len 0).val) :
    (recName r).getD j 0 = (r.getD (OFF_name + j) 0).val := by
  have hl := recName_length r h
  unfold NameInside at h
  have e1 : (recName r).getD j 0 = (recName r)[j] := List.getD_eq_getElem _ _ (by omega)
  have e2 : r.getD (OFF_name + j) 0 = r[OFF_name + j] := List.getD_eq_getElem _ _ (by omega)
  rw [e1, e2]
  unfold recName
  simp only [List.getElem_map, List.getElem_take, List.getElem_drop]


theorem memcmp_name_iff (seg : List Nat) (b : Sector) (off n : Nat) :
    memcmp_name seg b off n = true ↔ ∀ j, j < n → seg.getD j 0 = dirent_name b off j := by
  unfold memcmp_name
  simp [List.all_eq_true]

/-- The three name tests of openat_raw pass on a record exactly when its stored name matches the segment. -/
theorem dirent_tests_iff (seg : List Nat) (b : Sector) (off : Nat) (r : List Byte)
    (hh : HoldsRecord b off r) (hin : NameInside r) :
    (¬ (seg.length > dirent_name_len b off) ∧ ¬ (memcmp_name seg b off seg.length = false) ∧
      ¬ (dirent_name_len b off > seg.length ∧ dirent_name b off seg.length ≠ 59))
    ↔ NameMatches seg r := by
  unfold NameMatches
  rw [← name_tests_iff]
  have hl := recName_length r hin
  have hnl : dirent_name_len b off = (r.getD OFF_name_len 0).val := by
    unfold dirent_name_len byteAt
    rw [hh _ (by unfold NameInside OFF_name at hin; unfold OFF_name_len; omega)]
  have hnm : ∀ j, j < (r.getD OFF_name_len 0).val →
      dirent_name b off j = (recName r).getD j 0 := by
    intro j hj
    rw [recName_getD r hin j hj]
    unfold dirent_name byteAt
    rw [Nat.add_assoc, hh _ (by unfold NameInside at hin; omega)]
  rw [hl, hnl, Bool.not_eq_false, memcmp_name_iff]
  constructor
  · rintro ⟨h1, h2, h3⟩
    refine ⟨h1, fun j hj => ?_, ?_⟩
    · rw [h2 j hj, hnm j (by omega)]
    · rintro ⟨h4, h5⟩
      exact h3 ⟨h4, by rw [hnm _ h4]; exact h5⟩
  · rintro ⟨h1, h2, h3⟩
    refine ⟨h1, fun j hj => ?_, ?_⟩
    · rw [h2 j hj, hnm j (by omega)]
    · rintro ⟨h4, h5⟩
      exact h3 ⟨h4, by rw [← hnm _ h4]; exact h5⟩


theorem holds_of_sector (disk : Disk) (fs q : Nat) (b : Sector) (r : List Byte)
    (hb : ∀ j, j < 2048 → b j = extByte disk fs (q / 2048 * 2048 + j))
    (hr : RecordAt disk fs q r) : HoldsRecord b (q % 2048) r := by
  intro j hj
  obtain ⟨hok, hfit, hbytes⟩ := hr
  have : r.length ≤ slot r := by unfold slot aligneven; omega
  rw [hb _ (by omega), ← hbytes j hj]
  congr 1
  omega

theorem range_map_getD (r : List Byte) :
    (List.range r.length).map (fun j => r.getD j 0) = r := by
  apply List.ext_getElem
  · simp
  · intro i h1 h2
    simp only [List.getElem_map, List.getElem_range]
    exact List.getD_eq_getElem _ _ h2

theorem dirent_bytes_eq (b : Sector) (off : Nat) (r : List Byte)
    (hh : HoldsRecord b off r) (hok : RecordOK r) : dirent_bytes b off = r := by
  have hlen0 : 0 < r.length := List.length_pos.mpr hok.1
  have hl : dirent_length b off = r.length := by
    unfold dirent_length byteAt OFF_length
    rw [hh 0 hlen0]; exact hok.2
  unfold dirent_bytes
  rw [hl]
  conv_rhs => rw [← range_map_getD r]
  apply List.map_congr_left
  intro j hj
  exact hh j (List.mem_range.mp hj)

/-- The enumeration loop over a laid-out directory returns exactly its records, in order, and ends on the null record with L9660_OK. -/
theorem readdir_loop_lists (disk : Disk) (hs : Succeeds disk) (fs len : Nat)
    (hlen : len + 2047 < U32) (rs : List (List Byte)) :
    ∀ (f : l9660_file) (p fuel : Nat), AtPos disk fs len f p → Placed disk fs len p rs →
      rs.length + 2 ≤ fuel →
      ∃ f2, readdir_loop disk fuel f = some (rs, L9660_OK, f2) ∧ f2.length ≤ f2.position := by
  induction rs with
  | nil =>
    intro f p fuel hat hpl hfuel
    obtain ⟨k, rfl⟩ : ∃ k, fuel = k + 2 := ⟨fuel - 2, by simp at hfuel; omega⟩
    obtain ⟨f2, h1, h2⟩ := readdir_end disk hs fs len hlen f p hat hpl k none
    refine ⟨f2, ?_, h2⟩
    rw [readdir_loop, h1]
    simp
  | cons r rs ih =>
    intro f p fuel hat hpl hfuel
    obtain ⟨k, rfl⟩ : ∃ k, fuel = k + 2 := ⟨fuel - 2, by simp at hfuel; omega⟩
    obtain ⟨f2, q, h1, h2, h3, h4, h5⟩ := readdir_next disk hs fs len hlen f p r rs hat hpl k none
    have hfuel2 : rs.length + 2 ≤ k + 1 := by simp at hfuel; omega
    obtain ⟨f3, h6, h7⟩ := ih f2 _ (k + 1) h2 h4 hfuel2
    refine ⟨f3, ?_, h7⟩
    rw [readdir_loop, h1]
    simp only [ne_eq, not_true_eq_false, if_false, h6]
    rw [dirent_bytes_eq _ _ r (holds_of_sector disk fs q f2.buf r h5 h3) h3.1]

/-- The null record is returned with L9660_OK only once position >= length. -/
theorem readdir_null_only_at_end (disk : Disk) :
    ∀ (fuel : Nat) (f : l9660_file) (pd : Option Nat) (f2 : l9660_file),
      l9660_readdir disk fuel f pd = some (L9660_OK, f2, none) → f2.length ≤ f2.position := by
  intro fuel
  induction fuel with
  | zero => intro f pd f2 h; simp [l9660_readdir] at h
  | succ n ih =>
    intro f pd f2 h
    rw [l9660_readdir] at h
    split at h
    · rename_i hge
      simp only [Option.some.injEq, Prod.mk.injEq, true_and, and_true] at h
      subst h; exact hge
    · simp only at h
      split at h
      · rename_i hrv
        simp only [Option.some.injEq, Prod.mk.injEq] at h
        exact absurd h.1 hrv
      · split at h
        · exact ih _ _ _ h
        · simp at h

theorem openat_scan_step (disk : Disk) (seg : List Nat) (seglen fuel : Nat)
    (dir : l9660_file) (dent : Option Nat) (dir1 : l9660_file) (off : Nat)
    (h : l9660_readdir disk (fuel + 1) dir dent = some (L9660_OK, dir1, some off)) :
    openat_scan disk seg seglen (fuel + 1) dir dent =
      if ¬ (seglen > dirent_name_len dir1.buf off) ∧
          ¬ (memcmp_name seg dir1.buf off seglen = false) ∧
          ¬ (dirent_name_len dir1.buf off > seglen ∧ dirent_name dir1.buf off seglen ≠ 59)
      then some (L9660_OK, dir1, some off)
      else openat_scan disk seg seglen fuel dir1 (some off) := by
  rw [openat_scan, h]
  simp only [ne_eq, not_true_eq_false, if_false]
  by_cases t1 : seglen > dirent_name_len dir1.buf off
  · simp [t1]
  · by_cases t2 : memcmp_name seg dir1.buf off seglen = false
    · simp [t1, t2]
    · by_cases t3 : dirent_name_len dir1.buf off > seglen ∧ dirent_name dir1.buf off seglen ≠ 59
      · rw [if_neg t1, if_neg t2, if_pos t3, if_neg (by tauto)]
      · rw [if_neg t1, if_neg t2, if_neg t3, if_pos ⟨t1, t2, t3⟩]

/-- The matching loop of openat_raw leaves with L9660_ENOENT when no record of the laid-out directory matches. -/
theorem scan_not_found (disk : Disk) (hs : Succeeds disk) (fs len : Nat)
    (hlen : len + 2047 < U32) (seg : List Nat) (rs : List (List Byte)) :
    ∀ (f : l9660_file) (p fuel : Nat) (pd : Option Nat), AtPos disk fs len f p →
      Placed disk fs len p rs → (∀ r ∈ rs, NameInside r) →
      (∀ r ∈ rs, ¬ NameMatches seg r) → rs.length + 2 ≤ fuel →
      ∃ f2, openat_scan disk seg seg.length fuel f pd = some (L9660_ENOENT, f2, none) := by
  induction rs with
  | nil =>
    intro f p fuel pd hat hpl _ _ hfuel
    obtain ⟨k, rfl⟩ : ∃ k, fuel = k + 2 := ⟨fuel - 2, by simp at hfuel; omega⟩
    obtain ⟨f2, h1, _⟩ := readdir_end disk hs fs len hlen f p hat hpl k pd
    refine ⟨f2, ?_⟩
    rw [openat_scan, h1]
    simp
  | cons r rs ih =>
    intro f p fuel pd hat hpl hin hno hfuel
    obtain ⟨k, rfl⟩ : ∃ k, fuel = k + 2 := ⟨fuel - 2, by simp at hfuel; omega⟩
    obtain ⟨f2, q, h1, h2, h3, h4, h5⟩ := readdir_next disk hs fs len hlen f p r rs hat hpl k pd
    have hfuel2 : rs.length + 2 ≤ k + 1 := by simp at hfuel; omega
    have hh := holds_of_sector disk fs q f2.buf r h5 h3
    have hiff := dirent_tests_iff seg f2.buf (q % 2048) r hh (hin r (List.mem_cons_self _ _))
    obtain ⟨f3, h6⟩ := ih f2 _ (k + 1) (some (q % 2048)) h2 h4
      (fun x hx => hin x (List.mem_cons_of_mem _ hx))
      (fun x hx => hno x (List.mem_cons_of_mem _ hx)) hfuel2
    refine ⟨f3, ?_⟩
    rw [openat_scan_step disk seg seg.length (k + 1) f pd f2 (q % 2048) h1,
      if_neg (fun hc => hno r (List.mem_cons_self _ _) (hiff.mp hc)), h6]

/-- The matching loop of openat_raw stops on the first matching record of the laid-out directory. -/
theorem scan_found (disk : Disk) (hs : Succeeds disk) (fs len : Nat)
    (hlen : len + 2047 < U32) (seg : List Nat) (r : List Byte) (post : List (List Byte))
    (pre : List (List Byte)) :
    ∀ (f : l9660_file) (p fuel : Nat) (pd : Option Nat), AtPos disk fs len f p →
      Placed disk fs len p (pre ++ r :: post) → (∀ x ∈ pre, NameInside x) → NameInside r →
      (∀ x ∈ pre, ¬ NameMatches seg x) → NameMatches seg r → pre.length + 2 ≤ fuel →
      ∃ f2 off, openat_scan disk seg seg.length fuel f pd = some (L9660_OK, f2, some off) ∧
        HoldsRecord f2.buf off r := by
  induction pre with
  | nil =>
    intro f p fuel pd hat hpl _ hinr _ hm hfuel
    obtain ⟨k, rfl⟩ : ∃ k, fuel = k + 2 := ⟨fuel - 2, by simp at hfuel; omega⟩
    obtain ⟨f2, q, h1, h2, h3, h4, h5⟩ := readdir_next disk hs fs len hlen f p r post hat hpl k pd
    have hh := holds_of_sector disk fs q f2.buf r h5 h3
    have hiff := dirent_tests_iff seg f2.buf (q % 2048) r hh hinr
    refine ⟨f2, q % 2048, ?_, hh⟩
    rw [openat_scan_step disk seg seg.length (k + 1) f pd f2 (q % 2048) h1,
      if_pos (hiff.mpr hm)]
  | cons x pre ih =>
    intro f p fuel pd hat hpl hin hinr hno hm hfuel
    obtain ⟨k, rfl⟩ : ∃ k, fuel = k + 2 := ⟨fuel - 2, by simp at hfuel; omega⟩
    obtain ⟨f2, q, h1, h2, h3, h4, h5⟩ :=
      readdir_next disk hs fs len hlen f p x (pre ++ r :: post) hat hpl k pd
    have hfuel2 : pre.length + 2 ≤ k + 1 := by simp at hfuel; omega
    have hh := holds_of_sector disk fs q f2.buf x h5 h3
    have hiff := dirent_tests_iff seg f2.buf (q % 2048) x hh (hin x (List.mem_cons_self _ _))
    obtain ⟨f3, off, h6, h7⟩ := ih f2 _ (k + 1) (some (q % 2048)) h2 h4
      (fun y hy => hin y (List.mem_cons_of_mem _ hy)) hinr
      (fun y hy => hno y (List.mem_cons_of_mem _ hy)) hm hfuel2
    refine ⟨f3, off, ?_, h7⟩
    rw [openat_scan_step disk seg seg.length (k + 1) f pd f2 (q % 2048) h1,
      if_neg (fun hc => hno x (List.mem_cons_self _ _) (hiff.mp hc)), h6]

theorem seek_set_zero (disk : Disk) (f : l9660_file) :
    l9660_seek disk f Whence.SEEK_SET 0 = (L9660_OK, { f with position := 0 }) := by
  unfold l9660_seek fsector fsectoff
  simp

theorem atPos_zero (disk : Disk) (f : l9660_file) :
    AtPos disk f.first_sector f.length { f with position := 0 } 0 :=
  ⟨rfl, rfl, rfl, fun h => absurd rfl h⟩

/-- The bitwise combination of four bytes is their little-endian sum. -/
theorem or_shift_eq_sum (b0 b1 b2 b3 : Nat) (h0 : b0 < 256) (h1 : b1 < 256) (h2 : b2 < 256)
    (h3 : b3 < 256) :
    (b0 ||| (b1 <<< 8) ||| (b2 <<< 16) ||| (b3 <<< 24)) % U32
      = b0 + 256 * b1 + 65536 * b2 + 16777216 * b3 := by
  have e1 : b0 ||| (b1 <<< 8) = 2 ^ 8 * b1 + b0 := by
    rw [Nat.shiftLeft_eq, Nat.mul_add_lt_is_or (by omega) b1, Nat.or_comm, Nat.mul_comm]
  have e2 : (2 ^ 8 * b1 + b0) ||| (b2 <<< 16) = 2 ^ 16 * b2 + (2 ^ 8 * b1 + b0) := by
    rw [Nat.shiftLeft_eq, Nat.mul_add_lt_is_or (by omega) b2, Nat.or_comm, Nat.mul_comm]
  have e3 : (2 ^ 16 * b2 + (2 ^ 8 * b1 + b0)) ||| (b3 <<< 24)
      = 2 ^ 24 * b3 + (2 ^ 16 * b2 + (2 ^ 8 * b1 + b0)) := by
    rw [Nat.shiftLeft_eq, Nat.mul_add_lt_is_or (by omega) b3, Nat.or_comm, Nat.mul_comm]
  rw [e1, e2, e3]
  unfold U32
  omega

/-- READ32 is the little-endian value of the four bytes of the field. -/
theorem READ32_eq_sum (b : Sector) (p : Nat) :
    READ32 b p = byteAt b p + 256 * byteAt b (p + 1) + 65536 * byteAt b (p + 2)
      + 16777216 * byteAt b (p + 3) :=
  or_shift_eq_sum _ _ _ _ (b p).isLt (b (p + 1)).isLt (b (p + 2)).isLt (b (p + 3)).isLt

theorem read32_holds (b : Sector) (off p : Nat) (r : List Byte) (hh : HoldsRecord b off r)
    (hp : p + 3 < r.length) : READ32 b (off + p) = recRead32 r p := by
  rw [READ32_eq_sum]
  unfold recRead32 byteAt
  rw [Nat.add_assoc off p 1, Nat.add_assoc off p 2, Nat.add_assoc off p 3,
    hh p (by omega), hh (p + 1) (by omega), hh (p + 2) (by omega), hh (p + 3) (by omega)]

theorem recRead32_lt (r : List Byte) (p : Nat) : recRead32 r p < U32 := by
  unfold recRead32 U32
  have h0 := (r.getD p 0).isLt
  have h1 := (r.getD (p + 1) 0).isLt
  have h2 := (r.getD (p + 2) 0).isLt
  have h3 := (r.getD (p + 3) 0).isLt
  omega

/-- A last segment that matches no record of the well-formed parent directory gives L9660_ENOENT. -/
theorem openat_raw_single_none (disk : Disk) (hs : Succeeds disk) (child parent : l9660_file)
    (rs : List (List Byte)) (name seg : List Nat) (isdir : Bool)
    (hd : DirExtent disk parent.first_sector parent.length rs)
    (hin : ∀ r ∈ rs, NameInside r)
    (hseg : segment_of name = (seg, seg.length))
    (fuel : Nat) (hfuel : rs.length + 3 ≤ fuel)
    (hno : ∀ r ∈ rs, ¬ NameMatches seg r) :
    ∃ p2, openat_raw disk fuel child parent name isdir = some (L9660_ENOENT, child, p2) := by
  obtain ⟨k, rfl⟩ : ∃ k, fuel = k + 1 := ⟨fuel - 1, by omega⟩
  obtain ⟨hlen, hpl⟩ := hd
  obtain ⟨f2, h1⟩ := scan_not_found disk hs _ _ hlen seg rs _ 0 k none
    (atPos_zero disk parent) hpl hin hno (by omega)
  refine ⟨f2, ?_⟩
  unfold openat_raw
  rw [seek_set_zero]
  simp only [ne_eq, not_true_eq_false, if_false]
  rw [openat_walk, hseg]
  simp only [OpenState.dir, Bool.false_eq_true, if_false, h1, OpenState.setDir]
  simp

/-- A single segment resolves to the first matching record of the well-formed parent directory. -/
theorem openat_raw_single_some (disk : Disk) (hs : Succeeds disk) (child parent : l9660_file)
    (rs : List (List Byte)) (name seg : List Nat) (isdir : Bool)
    (hd : DirExtent disk parent.first_sector parent.length rs)
    (hin : ∀ r ∈ rs, NameInside r)
    (hseg : segment_of name = (seg, seg.length))
    (hlast : (strchrnul name 47).getD 0 0 = 0)
    (fuel : Nat) (hfuel : rs.length + 3 ≤ fuel)
    (pre : List (List Byte)) (r : List Byte) (post : List (List Byte))
    (hrs : rs = pre ++ r :: post) (hno : ∀ x ∈ pre, ¬ NameMatches seg x)
    (hm : NameMatches seg r) :
    ∃ p2, openat_raw disk fuel child parent name isdir =
      some (finalStatus isdir r,
        { child with first_sector := recFirstSector r, length := recSize r, position := 0 },
        p2) := by
  obtain ⟨k, rfl⟩ : ∃ k, fuel = k + 1 := ⟨fuel - 1, by omega⟩
  obtain ⟨hlen, hpl⟩ := hd
  subst hrs
  have hinr : NameInside r := hin r (by simp)
  obtain ⟨f2, off, h1, hh⟩ := scan_found disk hs _ _ hlen seg r post pre _ 0 k none
    (atPos_zero disk parent) hpl (fun x hx => hin x (by simp [hx])) hinr hno hm
    (by simp at hfuel; omega)
  have hr33 : 33 ≤ r.length := by unfold NameInside OFF_name at hinr; omega
  have e1 : READ32 f2.buf (off + OFF_sector) = recRead32 r OFF_sector :=
    read32_holds _ _ _ _ hh (by unfold OFF_sector; omega)
  have e2 : READ32 f2.buf (off + OFF_size) = recRead32 r OFF_size :=
    read32_holds _ _ _ _ hh (by unfold OFF_size; omega)
  have e3 : dirent_xattr_length f2.buf off = (r.getD OFF_xattr_length 0).val := by
    unfold dirent_xattr_length byteAt
    rw [hh _ (by unfold OFF_xattr_length; omega)]
  have e4 : dirent_flags f2.buf off = (r.getD OFF_flags 0).val := by
    unfold dirent_flags byteAt
    rw [hh _ (by unfold OFF_flags; omega)]
  refine ⟨f2, ?_⟩
  unfold openat_raw
  rw [seek_set_zero]
  simp only [ne_eq, not_true_eq_false, if_false]
  rw [openat_walk, hseg]
  simp only [OpenState.dir, Bool.false_eq_true, if_false, h1, OpenState.setDir,
    ne_eq, not_true_eq_false, hlast, false_and, Option.getD_some, OpenState.dentBuf, e1, e2,
    e3, e4, Nat.mod_eq_of_lt (recRead32_lt r OFF_size)]
  unfold finalStatus recFirstSector recSize
  cases isdir <;> simp <;> split <;> simp_all

/-- One call of l9660_read on a stream with a current buffer returns the extent bytes from the position on. -/
theorem read_step (disk : Disk) (hs : Succeeds disk) (f : l9660_file) (size : Nat)
    (hpos : f.position ≤ f.length) (hlen : f.length < U32) (hc : CacheCurrent disk f) :
    ∃ n, n = min size (min (2048 - f.position % 2048) (f.length - f.position)) ∧
      (l9660_read disk f size).status = L9660_OK ∧
      (l9660_read disk f size).file.position = f.position + n ∧
      (l9660_read disk f size).file.first_sector = f.first_sector ∧
      (l9660_read disk f size).file.length = f.length ∧
      (l9660_read disk f size).data
        = (List.range' f.position n).map (extByte disk f.first_sector) ∧
      CacheCurrent disk (l9660_read disk f size).file := by
  obtain ⟨h1, h2, h3, h4⟩ := prebuffer_ok disk hs f
  have hb := prebuffer_current disk hs f hc
  have hsize : (if (if (2048 - f.position % 2048) % 65536 >
        (f.length + U32 - f.position % U32) % U32
        then (f.length + U32 - f.position % U32) % U32 % 65536
        else (2048 - f.position % 2048) % 65536) < size
      then (if (2048 - f.position % 2048) % 65536 >
        (f.length + U32 - f.position % U32) % U32
        then (f.length + U32 - f.position % U32) % U32 % 65536
        else (2048 - f.position % 2048) % 65536) else size)
      = min size (min (2048 - f.position % 2048) (f.length - f.position)) := by
    unfold U32 at *
    split <;> split <;> omega
  refine ⟨_, rfl, ?_⟩
  unfold l9660_read
  simp only [h1, ne_eq, not_true_eq_false, if_false, fsectoff, h2, h3, h4, hsize]
  refine ⟨trivial, ?_, trivial, trivial, ?_, ?_⟩
  · unfold U32 at *; omega
  · rw [List.range'_eq_map_range, List.map_map]
    apply List.map_congr_left
    intro j hj
    have hj2 := List.mem_range.mp hj
    simp only [Function.comp]
    rw [hb _ (by omega)]
    congr 1
    omega
  · intro hne j hj
    simp only at hne ⊢
    have hmod : (f.position + min size (min (2048 - f.position % 2048)
        (f.length - f.position))) % U32 = f.position + min size (min (2048 - f.position % 2048)
        (f.length - f.position)) := by unfold U32 at *; omega
    rw [hmod] at hne ⊢
    rw [hb j hj]
    have hq : (f.position + min size (min (2048 - f.position % 2048)
        (f.length - f.position))) / 2048 * 2048 = f.position / 2048 * 2048 := by omega
    rw [hq]

/-- The read loop from any position with a current buffer returns the rest of the extent. -/
theorem read_loop_from (disk : Disk) (hs : Succeeds disk) (sizes : Nat → Nat)
    (hsz : ∀ k, 0 < sizes k) :
    ∀ (fuel k : Nat) (f : l9660_file), f.position ≤ f.length → f.length < U32 →
      CacheCurrent disk f → f.length - f.position < fuel →
      ∃ f2, read_loop disk sizes fuel k f =
          some (L9660_OK,
            (List.range' f.position (f.length - f.position)).map (extByte disk f.first_sector),
            f2) ∧ f2.position = f.length := by
  intro fuel
  induction fuel with
  | zero => intro k f _ _ _ h; omega
  | succ m ih =>
    intro k f hpos hlen hc hfuel
    rw [read_loop]
    by_cases heq : f.position = f.length
    · refine ⟨f, ?_, heq⟩
      simp [heq]
    · obtain ⟨n, hn, r1, r2, r3, r4, r5, r6⟩ := read_step disk hs f (sizes k) hpos hlen hc
      have hk := hsz k
      have hn1 : 0 < n ∧ n ≤ f.length - f.position := by omega
      obtain ⟨f2, h1, h2⟩ := ih (k + 1) (l9660_read disk f (sizes k)).file
        (by rw [r2, r4]; omega) (by rw [r4]; exact hlen) r6 (by rw [r2, r4]; omega)
      refine ⟨f2, ?_, by rw [h2, r4]⟩
      simp only [heq, if_false, r1, ne_eq, not_true_eq_false, h1, r5, r2, r3, r4]
      have : f.length - f.position = f.length - (f.position + n) + n := by omega
      rw [this, ← List.map_append, List.range'_append_1]

theorem strchrnul_no_sep (s : List Nat) (h : ∀ c ∈ s, c ≠ 47 ∧ c ≠ 0) :
    strchrnul s 47 = [] := by
  induction s with
  | nil => rfl
  | cons x xs ih =>
    have hx := h x (List.mem_cons_self _ _)
    rw [strchrnul, if_neg hx.2, if_neg hx.1]
    exact ih (fun c hc => h c (List.mem_cons_of_mem _ hc))

theorem strchrnul_cut (a rest : List Nat) (h : ∀ c ∈ a, c ≠ 47 ∧ c ≠ 0) :
    strchrnul (a ++ 47 :: rest) 47 = rest := by
  induction a with
  | nil => simp [strchrnul]
  | cons x xs ih =>
    have hx := h x (List.mem_cons_self _ _)
    rw [List.cons_append, strchrnul, if_neg hx.2, if_neg hx.1]
    exact ih (fun c hc => h c (List.mem_cons_of_mem _ hc))

theorem segment_plain (s : List Nat) (h : ∀ c ∈ s, c ≠ 47 ∧ c ≠ 0) (h1 : s ≠ [46])
    (h2 : s ≠ [46, 46]) : segment_of s = (s, s.length) := by
  unfold segment_of
  rw [strchrnul_no_sep s h]
  simp only [List.length_nil, Nat.sub_zero]
  have c1 : ¬ (s.length = 1 ∧ s.getD 0 0 = 46) := by
    rintro ⟨hl, hc⟩
    match s, hl, hc with
    | [x], _, hc => simp at hc; subst hc; exact h1 rfl
  rw [if_neg c1]
  have c2 : ¬ (s.length = 2 ∧ s.getD 0 0 = 46 ∧ s.getD 1 0 = 46) := by
    rintro ⟨hl, hc, hd⟩
    match s, hl, hc, hd with
    | [x, y], _, hc, hd => simp at hc hd; subst hc; subst hd; exact h2 rfl
  rw [if_neg c2]

theorem first_match_exists (P : List Byte → Prop) (rs : List (List Byte))
    (h : ∃ r ∈ rs, P r) :
    ∃ pre r post, rs = pre ++ r :: post ∧ (∀ x ∈ pre, ¬ P x) ∧ P r := by
  induction rs with
  | nil => obtain ⟨r, hr, _⟩ := h; simp at hr
  | cons x xs ih =>
    by_cases hx : P x
    · exact ⟨[], x, xs, rfl, by simp, hx⟩
    · obtain ⟨r, hr, hp⟩ := h
      have hxs : ∃ r ∈ xs, P r := by
        rcases List.mem_cons.mp hr with rfl | hmem
        · exact absurd hp hx
        · exact ⟨r, hmem, hp⟩
      obtain ⟨pre, r2, post, h1, h2, h3⟩ := ih hxs
      refine ⟨x :: pre, r2, post, by rw [h1]; rfl, ?_, h3⟩
      intro y hy
      rcases List.mem_cons.mp hy with rfl | hmem
      · exact hx
      · exact h2 y hmem

theorem finalStatus_ne_enoent (isdir : Bool) (r : List Byte) :
    finalStatus isdir r ≠ L9660_ENOENT := by
  unfold finalStatus
  cases isdir <;> simp <;> split <;> simp

theorem exDisk_succeeds : Succeeds exDisk := by
  intro n
  unfold exDisk
  split
  · exact ⟨_, rfl⟩
  · split
    · exact ⟨_, rfl⟩
    · exact ⟨_, rfl⟩

theorem sectorOfBytes_zero (bs : List Byte) (q : Nat) (h : bs.length ≤ q) :
    sectorOfBytes bs q = 0 := List.getD_eq_default _ _ h

theorem exRoot_recordAt :
    RecordAt exDisk 23 0 exSelf ∧ RecordAt exDisk 23 34 exParent ∧
    RecordAt exDisk 23 68 exReadme ∧ RecordAt exDisk 23 114 exDirA := by
  unfold RecordAt RecordOK
  decide

theorem exRoot_tail (q : Nat) (h1 : 148 ≤ q) (h2 : q < 2048) : extByte exDisk 23 q = 0 := by
  unfold extByte
  have e1 : (23 + q / 2048) % U32 = 23 := by unfold U32; omega
  have e2 : q % 2048 = q := by omega
  rw [e1, e2]
  exact sectorOfBytes_zero _ q h1

theorem exRoot_dirExtent : DirExtent exDisk 23 2048 exRootRecords := by
  obtain ⟨h1, h2, h3, h4⟩ := exRoot_recordAt
  refine ⟨by decide, ?_⟩
  exact Or.inl ⟨h1, Or.inl ⟨h2, Or.inl ⟨h3, Or.inl ⟨h4, by decide, by decide, exRoot_tail⟩⟩⟩⟩

theorem exRoot_nameInside : ∀ r ∈ exRootRecords, NameInside r := by
  unfold NameInside
  decide

theorem finalStatus_dir (r : List Byte) (h : recIsDir r) : finalStatus true r = L9660_OK := by
  unfold finalStatus recIsDir at *
  rw [if_pos rfl, if_neg h]

/-- On a sector boundary in front of a sector whose first byte is zero l9660_readdir makes no progress: fnextsectpos gives the position back and no number of passes is enough. -/
theorem readdir_stuck (disk : Disk) (s : Sector) (hz : byteAt s 0 = 0) :
    ∀ (fuel : Nat) (f : l9660_file) (pd : Option Nat), f.position % 2048 = 0 →
      f.position < f.length → f.position + 2047 < U32 →
      disk ((f.first_sector + f.position / 2048) % U32) = some s →
      l9660_readdir disk fuel f pd = none := by
  intro fuel
  induction fuel with
  | zero => intro f pd _ _ _ _; rfl
  | succ n ih =>
    intro f pd h0 hlt hb hsec
    have hpre : prebuffer disk f = (L9660_OK, { f with buf := s }) := by
      unfold prebuffer buffer
      rw [if_pos h0, hsec]
    have hnx : fnextsectpos { f with buf := s } = f.position := by
      unfold fnextsectpos
      simp only
      rw [Nat.mod_eq_of_lt hb]
      omega
    rw [l9660_readdir]
    have hnot : ¬ (f.position ≥ f.length) := by omega
    simp only [hnot, if_false, hpre, ne_eq, not_true_eq_false, fsectoff, h0, hz, if_true, hnx]
    exact ih _ pd h0 hlt hb hsec

theorem readdir_loop_call_none (disk : Disk) (n : Nat) (f : l9660_file)
    (h : l9660_readdir disk (n + 1) f none = none) : readdir_loop disk (n + 1) f = none := by
  rw [readdir_loop, h]

theorem readdir_loop_step_none (disk : Disk) (n : Nat) (f f1 : l9660_file) (off : Nat)
    (h : l9660_readdir disk (n + 1) f none = some (L9660_OK, f1, some off))
    (h2 : readdir_loop disk n f1 = none) : readdir_loop disk (n + 1) f = none := by
  rw [readdir_loop, h]
  simp only [ne_eq, not_true_eq_false, if_false, h2]

theorem exLong_stuck (n : Nat) : l9660_readdir exDisk n (exLongAt 148) none = none := by
  cases n with
  | zero => rfl
  | succ m =>
    have e : l9660_readdir exDisk (m + 1) (exLongAt 148) none
        = l9660_readdir exDisk m (exLongAt 2048) none := rfl
    rw [e]
    exact readdir_stuck exDisk zeroSector rfl m (exLongAt 2048) none rfl (by decide) (by decide)
      rfl

/-- One pass of the mount loop on a sector that was read. -/
theorem openfs_loop_step (disk : Disk) (fuel idx : Nat) (fs : l9660_fs) (s : Sector)
    (hsec : disk idx = some s) :
    l9660_openfs_loop disk (fuel + 1) fs idx =
      if magic_ok s = false then some (L9660_EBADFS, { pvd := s })
      else if byteAt s OFF_vdesc_type = 1 then some (L9660_OK, { pvd := s })
      else if byteAt s OFF_vdesc_type = 255 then some (L9660_EBADFS, { pvd := s })
      else l9660_openfs_loop disk fuel { pvd := s } idx := by
  rw [l9660_openfs_loop, hsec]

/-- The mount loop never returns on a descriptor that carries the magic and is
neither primary nor terminator: each pass reads the same sector again. -/
theorem openfs_loop_stuck (disk : Disk) (idx : Nat) (s : Sector) (hsec : disk idx = some s)
    (hm : magic_ok s = true) (h1 : byteAt s OFF_vdesc_type ≠ 1)
    (h255 : byteAt s OFF_vdesc_type ≠ 255) :
    ∀ (fuel : Nat) (fs : l9660_fs), l9660_openfs_loop disk fuel fs idx = none := by
  intro fuel
  induction fuel with
  | zero => intro fs; rfl
  | succ n ih =>
    intro fs
    rw [openfs_loop_step disk n idx fs s hsec, hm, if_neg (by simp), if_neg h1, if_neg h255]
    exact ih _

/-- Whenever the segment loop of openat_raw leaves with L9660_OK, the child
stream stands at position 0. -/
theorem openat_walk_child_position (disk : Disk) :
    ∀ (fuel : Nat) (st : OpenState) (name : List Nat) (st2 : OpenState),
      openat_walk disk fuel st name = some (L9660_OK, st2) → st2.child.position = 0 := by
  intro fuel
  induction fuel with
  | zero => intro st name st2 h; simp [openat_walk] at h
  | succ n ih =>
    intro st name st2 h
    rw [openat_walk] at h
    cases hscan : openat_scan disk (segment_of name).1 (segment_of name).2 n st.dir st.dent with
    | none => rw [hscan] at h; simp at h
    | some res =>
      obtain ⟨rv, dir1, dent1⟩ := res
      rw [hscan] at h
      simp only at h
      split at h
      · rename_i hrv
        simp only [Option.some.injEq, Prod.mk.injEq] at h
        exact absurd h.1 hrv
      · split at h
        · simp at h
        · split at h
          · exact ih _ _ _ h
          · simp only [Option.some.injEq, Prod.mk.injEq, true_and] at h
            rw [← h]

/-- The position of a stream after l9660_read is within its length when it
was before. -/
theorem read_keeps_position_le (disk : Disk) (f : l9660_file) (size : Nat)
    (hpos : f.position ≤ f.length) (hlen : f.length < U32) :
    (l9660_read disk f size).file.position ≤ (l9660_read disk f size).file.length := by
  have hp : (prebuffer disk f).2.position = f.position ∧
      (prebuffer disk f).2.length = f.length := by
    unfold prebuffer buffer
    split
    · split <;> exact ⟨rfl, rfl⟩
    · exact ⟨rfl, rfl⟩
  unfold l9660_read
  simp only
  split
  · simp only [hp.1, hp.2]; exact hpos
  · simp only [fsectoff, hp.1, hp.2]
    unfold U32 at *
    split <;> split <;> omega

/-- Without its trace buffer_traced is buffer, and its trace is the one sector
of the position. -/
theorem buffer_traced_eq (disk : Disk) (f : l9660_file) :
    buffer_traced disk f
      = ((buffer disk f).1, (buffer disk f).2, [(f.first_sector + f.position / 2048) % U32]) := by
  unfold buffer_traced buffer
  split <;> rfl

theorem propagates_nil (disk : Disk) (rv : Option l9660_status) : Propagates disk rv [] :=
  Or.inl (fun _ h => absurd h (List.not_mem_nil _))

theorem failsLast_append (disk : Disk) (l1 l2 : List Nat) (h1 : ∀ m ∈ l1, disk m ≠ none)
    (h2 : FailsLast disk l2) : FailsLast disk (l1 ++ l2) := by
  obtain ⟨init, n, e, hi, hn⟩ := h2
  refine ⟨l1 ++ init, n, by rw [e, List.append_assoc], ?_, hn⟩
  intro m hm
  rcases List.mem_append.mp hm with h | h
  · exact h1 m h
  · exact hi m h

/-- Calls that all succeeded, put before a trace obeying the propagation rule, give a trace obeying it. -/
theorem propagates_append (disk : Disk) (rv : Option l9660_status) (l1 l2 : List Nat)
    (h1 : ∀ m ∈ l1, disk m ≠ none) (h2 : Propagates disk rv l2) :
    Propagates disk rv (l1 ++ l2) := by
  rcases h2 with h | ⟨hrv, hf⟩
  · left
    intro m hm
    rcases List.mem_append.mp hm with h' | h'
    · exact h1 m h'
    · exact h m h'
  · exact Or.inr ⟨hrv, failsLast_append disk l1 l2 h1 hf⟩

theorem propagates_ok (disk : Disk) (rv : l9660_status) (log : List Nat)
    (h : Propagates disk (some rv) log) (hrv : rv ≠ L9660_EIO) : ∀ m ∈ log, disk m ≠ none := by
  rcases h with h | ⟨e, _⟩
  · exact h
  · exact absurd (Option.some.inj e) hrv

theorem propagates_failure (disk : Disk) (rv : Option l9660_status) (log : List Nat)
    (h : Propagates disk rv log) (hf : HasFailure disk log) :
    rv = some L9660_EIO ∧ FailsLast disk log := by
  rcases h with h | h
  · obtain ⟨n, hn, hd⟩ := hf
    exact absurd hd (h n hn)
  · exact h

/-- The call of buffer either succeeds, with its one request served, or
returns L9660_EIO with the stream untouched and its one request failed. -/
theorem buffer_traced_cases (disk : Disk) (f : l9660_file) :
    ((buffer_traced disk f).1 = L9660_OK ∧ ∀ m ∈ (buffer_traced disk f).2.2, disk m ≠ none)
    ∨ ((buffer_traced disk f).1 = L9660_EIO ∧ (buffer_traced disk f).2.1 = f ∧
        FailsLast disk (buffer_traced disk f).2.2) := by
  unfold buffer_traced
  cases h : disk ((f.first_sector + f.position / 2048) % U32) with
  | none =>
    right
    exact ⟨rfl, rfl, [], _, rfl, fun _ hm => absurd hm (List.not_mem_nil _), h⟩
  | some s =>
    left
    refine ⟨rfl, ?_⟩
    intro m hm
    simp only [List.mem_singleton] at hm
    rw [hm, h]
    simp

theorem prebuffer_traced_cases (disk : Disk) (f : l9660_file) :
    ((prebuffer_traced disk f).1 = L9660_OK ∧
      ∀ m ∈ (prebuffer_traced disk f).2.2, disk m ≠ none)
    ∨ ((prebuffer_traced disk f).1 = L9660_EIO ∧ (prebuffer_traced disk f).2.1 = f ∧
        FailsLast disk (prebuffer_traced disk f).2.2) := by
  unfold prebuffer_traced
  split
  · exact buffer_traced_cases disk f
  · left
    exact ⟨rfl, fun _ hm => absurd hm (List.not_mem_nil _)⟩

theorem prebuffer_traced_erase (disk : Disk) (f : l9660_file) :
    (prebuffer_traced disk f).1 = (prebuffer disk f).1 ∧
    (prebuffer_traced disk f).2.1 = (prebuffer disk f).2 := by
  unfold prebuffer_traced prebuffer
  split
  · rw [buffer_traced_eq]
    exact ⟨rfl, rfl⟩
  · exact ⟨rfl, rfl⟩

/-- Without its trace l9660_read_traced is l9660_read. -/
theorem read_traced_erase (disk : Disk) (f : l9660_file) (size : Nat) :
    (l9660_read_traced disk f size).1 = l9660_read disk f size := by
  obtain ⟨h1, h2⟩ := prebuffer_traced_erase disk f
  unfold l9660_read_traced l9660_read
  simp only [h1, h2]
  split <;> rfl

/-- The trace of l9660_read obeys the propagation rule, and a call that returns L9660_EIO reports nothing and leaves the stream as it was. -/
theorem read_traced_propagates (disk : Disk) (f : l9660_file) (size : Nat) :
    Propagates disk (some (l9660_read_traced disk f size).1.status)
      (l9660_read_traced disk f size).2 ∧
    ((l9660_read_traced disk f size).1.status = L9660_EIO →
      (l9660_read_traced disk f size).1.read = none ∧
      (l9660_read_traced disk f size).1.data = [] ∧
      (l9660_read_traced disk f size).1.file = f) := by
  unfold l9660_read_traced
  simp only
  rcases prebuffer_traced_cases disk f with ⟨hok, hn⟩ | ⟨hio, hf, hl⟩
  · rw [if_neg (by rw [hok]; simp)]
    refine ⟨Or.inl hn, ?_⟩
    intro h
    exact absurd h (by simp)
  · rw [if_pos (by rw [hio]; decide)]
    exact ⟨Or.inr ⟨congrArg some hio, hl⟩, fun _ => ⟨rfl, rfl, hf⟩⟩

/-- Without its trace l9660_readdir_traced is l9660_readdir. -/
theorem readdir_traced_erase (disk : Disk) :
    ∀ (fuel : Nat) (f : l9660_file) (pd : Option Nat),
      (l9660_readdir_traced disk fuel f pd).1 = l9660_readdir disk fuel f pd := by
  intro fuel
  induction fuel with
  | zero => intro f pd; rfl
  | succ n ih =>
    intro f pd
    obtain ⟨h1, h2⟩ := prebuffer_traced_erase disk f
    rw [l9660_readdir_traced, l9660_readdir]
    simp only [h1, h2]
    split
    · rfl
    · split
      · rfl
      · split
        · exact ih _ _
        · rfl

/-- The trace of l9660_readdir obeys the propagation rule. -/
theorem readdir_traced_propagates (disk : Disk) :
    ∀ (fuel : Nat) (f : l9660_file) (pd : Option Nat),
      Propagates disk ((l9660_readdir_traced disk fuel f pd).1.map (fun x => x.1))
        (l9660_readdir_traced disk fuel f pd).2 := by
  intro fuel
  induction fuel with
  | zero => intro f pd; exact propagates_nil disk _
  | succ n ih =>
    intro f pd
    rw [l9660_readdir_traced]
    split
    · exact propagates_nil disk _
    · simp only
      rcases prebuffer_traced_cases disk f with ⟨hok, hn⟩ | ⟨hio, _, hl⟩
      · rw [if_neg (by rw [hok]; simp)]
        split
        · exact propagates_append disk _ _ _ hn (ih _ _)
        · exact Or.inl hn
      · rw [if_pos (by rw [hio]; decide)]
        exact Or.inr ⟨by simp [hio], hl⟩

theorem scan_traced_erase (disk : Disk) (seg : List Nat) (seglen : Nat) :
    ∀ (fuel : Nat) (dir : l9660_file) (dent : Option Nat),
      (openat_scan_traced disk seg seglen fuel dir dent).1
        = openat_scan disk seg seglen fuel dir dent := by
  intro fuel
  induction fuel with
  | zero => intro dir dent; rfl
  | succ n ih =>
    intro dir dent
    rw [openat_scan_traced, openat_scan]
    simp only [readdir_traced_erase]
    cases l9660_readdir disk (n + 1) dir dent with
    | none => rfl
    | some res =>
      obtain ⟨rv, dir1, dent1⟩ := res
      simp only
      split
      · rfl
      · cases dent1 with
        | none => rfl
        | some off =>
          simp only [ih]
          split
          · rfl
          · split
            · rfl
            · split <;> rfl

/-- The trace of the matching loop of openat_raw obeys the propagation rule. -/
theorem scan_traced_propagates (disk : Disk) (seg : List Nat) (seglen : Nat) :
    ∀ (fuel : Nat) (dir : l9660_file) (dent : Option Nat),
      Propagates disk ((openat_scan_traced disk seg seglen fuel dir dent).1.map (fun x => x.1))
        (openat_scan_traced disk seg seglen fuel dir dent).2 := by
  intro fuel
  induction fuel with
  | zero => intro dir dent; exact propagates_nil disk _
  | succ n ih =>
    intro dir dent
    have hr := readdir_traced_propagates disk (n + 1) dir dent
    rw [openat_scan_traced]
    cases hres : (l9660_readdir_traced disk (n + 1) dir dent).1 with
    | none =>
      rw [hres] at hr
      exact hr
    | some res =>
      obtain ⟨rv, dir1, dent1⟩ := res
      rw [hres] at hr
      simp only [Option.map_some'] at hr
      simp only
      split
      · exact hr
      · rename_i hrv
        have hok : rv = L9660_OK := by
          by_contra hc
          exact hrv hc
        subst hok
        have hn := propagates_ok disk _ _ hr (by decide)
        cases dent1 with
        | none => exact Or.inl hn
        | some off =>
          simp only
          split
          · exact propagates_append disk _ _ _ hn (ih _ _)
          · split
            · exact propagates_append disk _ _ _ hn (ih _ _)
            · split
              · exact propagates_append disk _ _ _ hn (ih _ _)
              · exact Or.inl hn

theorem walk_traced_erase (disk : Disk) :
    ∀ (fuel : Nat) (st : OpenState) (name : List Nat),
      (openat_walk_traced disk fuel st name).1 = openat_walk disk fuel st name := by
  intro fuel
  induction fuel with
  | zero => intro st name; rfl
  | succ n ih =>
    intro st name
    rw [openat_walk_traced, openat_walk]
    simp only [scan_traced_erase]
    cases openat_scan disk (segment_of name).1 (segment_of name).2 n st.dir st.dent with
    | none => rfl
    | some res =>
      obtain ⟨rv, dir1, dent1⟩ := res
      simp only [ih]
      split
      · rfl
      · split
        · rfl
        · split <;> rfl

/-- The trace of the segment loop of openat_raw obeys the propagation rule. -/
theorem walk_traced_propagates (disk : Disk) :
    ∀ (fuel : Nat) (st : OpenState) (name : List Nat),
      Propagates disk ((openat_walk_traced disk fuel st name).1.map (fun x => x.1))
        (openat_walk_traced disk fuel st name).2 := by
  intro fuel
  induction fuel with
  | zero => intro st name; exact propagates_nil disk _
  | succ n ih =>
    intro st name
    have hr := scan_traced_propagates disk (segment_of name).1 (segment_of name).2 n st.dir
      st.dent
    rw [openat_walk_traced]
    simp only
    cases hres : (openat_scan_traced disk (segment_of name).1 (segment_of name).2 n st.dir
        st.dent).1 with
    | none =>
      rw [hres] at hr
      exact hr
    | some res =>
      obtain ⟨rv, dir1, dent1⟩ := res
      rw [hres] at hr
      simp only [Option.map_some'] at hr
      simp only
      split
      · exact hr
      · rename_i hrv
        have hok : rv = L9660_OK := by
          by_contra hc
          exact hrv hc
        subst hok
        have hn := propagates_ok disk _ _ hr (by decide)
        split
        · exact Or.inl hn
        · split
          · exact propagates_append disk _ _ _ hn (ih _ _)
          · exact Or.inl hn

theorem seek_traced_erase (disk : Disk) (f : l9660_file) (whence : Whence) (offset : Int) :
    (l9660_seek_traced disk f whence offset).1 = (l9660_seek disk f whence offset).1 ∧
    (l9660_seek_traced disk f whence offset).2.1 = (l9660_seek disk f whence offset).2 := by
  have key : ∀ (g : l9660_file) (c : Prop) [Decidable c],
      (if c then buffer_traced disk g else (L9660_OK, g, [])).1
        = (if c then buffer disk g else (L9660_OK, g)).1 ∧
      (if c then buffer_traced disk g else (L9660_OK, g, [])).2.1
        = (if c then buffer disk g else (L9660_OK, g)).2 := by
    intro g c _
    split
    · rw [buffer_traced_eq]
      exact ⟨rfl, rfl⟩
    · exact ⟨rfl, rfl⟩
  cases whence
  · exact key _ _
  · exact key _ _
  · exact key _ _
  · exact key _ _

theorem seek_traced_propagates (disk : Disk) (f : l9660_file) (whence : Whence)
    (offset : Int) :
    Propagates disk (some (l9660_seek_traced disk f whence offset).1)
      (l9660_seek_traced disk f whence offset).2.2 := by
  have key : ∀ (g : l9660_file) (c : Prop) [Decidable c],
      Propagates disk (some (if c then buffer_traced disk g else (L9660_OK, g, [])).1)
        (if c then buffer_traced disk g else (L9660_OK, g, [])).2.2 := by
    intro g c _
    split
    · rcases buffer_traced_cases disk g with ⟨_, hn⟩ | ⟨hio, _, hl⟩
      · exact Or.inl hn
      · exact Or.inr ⟨congrArg some hio, hl⟩
    · exact propagates_nil disk _
  cases whence
  · exact key _ _
  · exact key _ _
  · exact key _ _
  · exact key _ _

/-- Without its trace openat_raw_traced is openat_raw. -/
theorem raw_traced_erase (disk : Disk) (fuel : Nat) (child parent : l9660_file)
    (name : List Nat) (isdir : Bool) :
    (openat_raw_traced disk fuel child parent name isdir).1
      = openat_raw disk fuel child parent name isdir := by
  obtain ⟨h1, h2⟩ := seek_traced_erase disk parent Whence.SEEK_SET 0
  unfold openat_raw_traced openat_raw
  simp only [h1, h2, walk_traced_erase]
  split
  · rfl
  · cases openat_walk disk fuel
        { child := child, parent := (l9660_seek disk parent Whence.SEEK_SET 0).2,
          onChild := false, dent := none, dentChild := false } name with
    | none => rfl
    | some res =>
      obtain ⟨rv1, st⟩ := res
      simp only
      split
      · rfl
      · cases isdir
        · simp only [Bool.false_eq_true, if_false]
          split <;> rfl
        · simp only [if_true]
          split <;> rfl

/-- The trace of openat_raw obeys the propagation rule. -/
theorem raw_traced_propagates (disk : Disk) (fuel : Nat) (child parent : l9660_file)
    (name : List Nat) (isdir : Bool) :
    Propagates disk ((openat_raw_traced disk fuel child parent name isdir).1.map (fun x => x.1))
      (openat_raw_traced disk fuel child parent name isdir).2 := by
  have hs := seek_traced_propagates disk parent Whence.SEEK_SET 0
  unfold openat_raw_traced
  simp only
  split
  · exact hs
  · rename_i hrv
    have hok : (l9660_seek_traced disk parent Whence.SEEK_SET 0).1 = L9660_OK := by
      by_contra hc
      exact hrv hc
    rw [hok] at hs
    have hn := propagates_ok disk _ _ hs (by decide)
    have hw := walk_traced_propagates disk fuel
      { child := child, parent := (l9660_seek_traced disk parent Whence.SEEK_SET 0).2.1,
        onChild := false, dent := none, dentChild := false } name
    cases hres : (openat_walk_traced disk fuel
        { child := child, parent := (l9660_seek_traced disk parent Whence.SEEK_SET 0).2.1,
          onChild := false, dent := none, dentChild := false } name).1 with
    | none =>
      rw [hres] at hw
      exact propagates_append disk _ _ _ hn hw
    | some res =>
      obtain ⟨rv1, st⟩ := res
      rw [hres] at hw
      simp only [Option.map_some'] at hw
      simp only
      split
      · exact propagates_append disk _ _ _ hn hw
      · rename_i hrv1
        have hok1 : rv1 = L9660_OK := by
          by_contra hc
          exact hrv1 hc
        subst hok1
        have hnw := propagates_ok disk _ _ hw (by decide)
        have hall : ∀ m ∈ (l9660_seek_traced disk parent Whence.SEEK_SET 0).2.2 ++
            (openat_walk_traced disk fuel
              { child := child,
                parent := (l9660_seek_traced disk parent Whence.SEEK_SET 0).2.1,
                onChild := false, dent := none, dentChild := false } name).2,
            disk m ≠ none := by
          intro m hm
          rcases List.mem_append.mp hm with h | h
          · exact hn m h
          · exact hnw m h
        cases isdir
        · simp only [Bool.false_eq_true, if_false]
          split <;> exact Or.inl hall
        · simp only [if_true]
          split <;> exact Or.inl hall

theorem exLong_stuck_any (n : Nat) (pd : Option Nat) :
    l9660_readdir exDisk n (exLongAt 148) pd = none := by
  cases n with
  | zero => rfl
  | succ m =>
    have e : l9660_readdir exDisk (m + 1) (exLongAt 148) pd
        = l9660_readdir exDisk m (exLongAt 2048) pd := rfl
    rw [e]
    exact readdir_stuck exDisk zeroSector rfl m (exLongAt 2048) pd rfl (by decide) (by decide)
      rfl

theorem openat_scan_call_none (disk : Disk) (seg : List Nat) (seglen n : Nat) (f : l9660_file)
    (pd : Option Nat) (h : l9660_readdir disk (n + 1) f pd = none) :
    openat_scan disk seg seglen (n + 1) f pd = none := by
  rw [openat_scan, h]

theorem openat_raw_scan_none (disk : Disk) (child parent : l9660_file) (name : List Nat)
    (isdir : Bool)
    (h : ∀ n, openat_scan disk (segment_of name).1 (segment_of name).2 n
      { parent with position := 0 } none = none) :
    ∀ fuel, openat_raw disk fuel child parent name isdir = none := by
  intro fuel
  unfold openat_raw
  rw [seek_set_zero]
  simp only [ne_eq, not_true_eq_false, if_false]
  cases fuel with
  | zero => rfl
  | succ k =>
    rw [openat_walk]
    simp only [OpenState.dir, Bool.false_eq_true, if_false, h]

theorem memcmp_name_take (seg : List Nat) (b : Sector) (off n : Nat) :
    memcmp_name (seg.take n) b off n = memcmp_name seg b off n := by
  have e : ∀ j, j < n → (seg.take n).getD j 0 = seg.getD j 0 := by
    intro j hj
    simp only [List.getD_eq_getElem?_getD, List.getElem?_take, hj, if_true]
  rw [Bool.eq_iff_iff, memcmp_name_iff, memcmp_name_iff]
  constructor
  · intro h j hj; rw [← e j hj]; exact h j hj
  · intro h j hj; rw [e j hj]; exact h j hj

theorem openat_scan_take (disk : Disk) (seg : List Nat) (n : Nat) :
    ∀ (fuel : Nat) (dir : l9660_file) (dent : Option Nat),
      openat_scan disk (seg.take n) n fuel dir dent = openat_scan disk seg n fuel dir dent := by
  intro fuel
  induction fuel with
  | zero => intro dir dent; rfl
  | succ k ih =>
    intro dir dent
    rw [openat_scan, openat_scan]
    simp only [memcmp_name_take, ih]

theorem segment_of_le (name : List Nat) :
    (segment_of name).2 ≤ (segment_of name).1.length := by
  unfold segment_of
  simp only
  by_cases c1 : name.length - (strchrnul name 47).length = 1 ∧ name.getD 0 0 = 46
  · rw [if_pos c1]
    split
    · simp
    · simp [c1.1]
  · rw [if_neg c1]
    split
    · simp
    · simp only
      omega

theorem firstSegment_length (name : List Nat) :
    (firstSegment name).length = (segment_of name).2 := by
  unfold firstSegment
  rw [List.length_take]
  exact Nat.min_eq_left (segment_of_le name)

theorem atPos_of_position (disk : Disk) (f : l9660_file) (h : f.position = 0) :
    AtPos disk f.first_sector f.length f 0 :=
  ⟨rfl, rfl, h, fun hne => absurd (by rw [h]) hne⟩

/-- The scan for the first segment of a path stops on the first record of the well-formed directory that matches it. -/
theorem scan_segment_some (disk : Disk) (hs : Succeeds disk) (f : l9660_file)
    (rs : List (List Byte)) (name : List Nat) (fuel : Nat) (pd : Option Nat)
    (hpos : f.position = 0) (hd : DirExtent disk f.first_sector f.length rs)
    (hin : ∀ r ∈ rs, NameInside r) (hfuel : rs.length + 2 ≤ fuel)
    (pre : List (List Byte)) (r : List Byte) (post : List (List Byte))
    (hrs : rs = pre ++ r :: post) (hno : ∀ x ∈ pre, ¬ NameMatches (firstSegment name) x)
    (hm : NameMatches (firstSegment name) r) :
    ∃ f2 off, openat_scan disk (segment_of name).1 (segment_of name).2 fuel f pd
      = some (L9660_OK, f2, some off) ∧ HoldsRecord f2.buf off r := by
  obtain ⟨hlen, hpl⟩ := hd
  subst hrs
  obtain ⟨f2, off, h, hh⟩ := scan_found disk hs _ _ hlen (firstSegment name) r post pre f 0 fuel
    pd (atPos_of_position disk f hpos) hpl (fun x hx => hin x (by simp [hx])) (hin r (by simp))
    hno hm (by simp at hfuel; omega)
  rw [firstSegment_length] at h
  unfold firstSegment at h
  rw [openat_scan_take] at h
  exact ⟨f2, off, h, hh⟩

theorem nameMatches_iff_take (s : List Nat) (r : List Byte) :
    NameMatches s r ↔ recName r = s ∨ (recName r).take (s.length + 1) = s ++ [59] := by
  unfold NameMatches
  constructor
  · rintro (h | ⟨suffix, h⟩)
    · exact Or.inl h
    · right
      rw [h]
      simp [List.take_append_eq_append_take]
  · rintro (h | h)
    · exact Or.inl h
    · right
      refine ⟨(recName r).drop (s.length + 1), ?_⟩
      have := List.take_append_drop (s.length + 1) (recName r)
      rw [h] at this
      rw [← this]
      simp

theorem not_nameMatches_all (s : List Nat) (rs : List (List Byte))
    (h : ∀ r ∈ rs, ¬ (recName r = s ∨ (recName r).take (s.length + 1) = s ++ [59])) :
    ∀ r ∈ rs, ¬ NameMatches s r :=
  fun r hr hm => h r hr ((nameMatches_iff_take s r).mp hm)

theorem exDiskSlash_succeeds : Succeeds exDiskSlash := by
  intro n
  unfold exDiskSlash
  split
  · exact ⟨_, rfl⟩
  · split
    · exact ⟨_, rfl⟩
    · exact ⟨_, rfl⟩

theorem exSlashA_dirExtent : DirExtent exDiskSlash 25 2048 exARecords := by
  have hr : RecordAt exDiskSlash 25 0 exSelfA ∧ RecordAt exDiskSlash 25 34 exParent ∧
      RecordAt exDiskSlash 25 68 exFileB := by
    unfold RecordAt RecordOK
    decide
  have ht : ∀ q, 102 ≤ q → q < 2048 → extByte exDiskSlash 25 q = 0 := by
    intro q h1 h2
    unfold extByte
    have e1 : (25 + q / 2048) % U32 = 25 := by unfold U32; omega
    have e2 : q % 2048 = q := by omega
    rw [e1, e2]
    exact sectorOfBytes_zero _ q h1
  obtain ⟨h1, h2, h3⟩ := hr
  refine ⟨by decide, ?_⟩
  exact Or.inl ⟨h1, Or.inl ⟨h2, Or.inl ⟨h3, by decide, by decide, ht⟩⟩⟩

theorem exA_nameInside : ∀ r ∈ exARecords, NameInside r := by
  unfold NameInside
  decide

/-- The segment compared for a path without separator is the path itself, or the marker byte 0 for "." and 1 for "..". -/
theorem firstSegment_last (last : List Nat) (hlast : ∀ c ∈ last, c ≠ 47 ∧ c ≠ 0) :
    firstSegment last = if last = [46] then [0] else if last = [46, 46] then [1] else last := by
  by_cases h1 : last = [46]
  · subst h1; rfl
  · by_cases h2 : last = [46, 46]
    · subst h2; rfl
    · rw [if_neg h1, if_neg h2]
      unfold firstSegment
      rw [segment_plain last hlast h1 h2]
      exact List.take_length last

/-- The segment compared in the first pass over the path A/B is A followed by the separator; in the sample root directory, which holds the directory A with the file B, the path A/B is not found. -/
theorem segment_counts_separator :
    firstSegment [65, 47, 66] = [65, 47] ∧
    (l9660_openat exDisk 10 exBlank { exBlank with first_sector := 25, length := 2048 }
      [66]).map (fun x => (x.1, x.2.1.first_sector, x.2.1.length)) = some (L9660_OK, 40, 10) ∧
    (l9660_openat exDisk 10 exBlank exRoot [65, 47, 66]).map (fun x => x.1)
      = some L9660_ENOENT := by
  decide

/-- For a path that is a single segment s (no separator, not "." and not
"..") and a well-formed parent directory whose declared length ends in the
sector of its last record, openat_raw returns L9660_ENOENT if and only if no
record matches, and on a match derives the child stream from the first
matching record in on-disk order. -/
theorem openat_raw_single_segment (disk : Disk) (hs : Succeeds disk)
    (child parent : l9660_file) (rs : List (List Byte)) (s : List Nat) (isdir : Bool)
    (hd : DirExtent disk parent.first_sector parent.length rs)
    (hin : ∀ r ∈ rs, NameInside r)
    (hchars : ∀ c ∈ s, c ≠ 47 ∧ c ≠ 0) (hdot : s ≠ [46]) (hdotdot : s ≠ [46, 46])
    (fuel : Nat) (hfuel : rs.length + 3 ≤ fuel) :
    ∃ rv child2 parent2,
      openat_raw disk fuel child parent s isdir = some (rv, child2, parent2) ∧
      (rv = L9660_ENOENT ↔ ∀ r ∈ rs, ¬ NameMatches s r) ∧
      ∀ pre r post, rs = pre ++ r :: post → (∀ x ∈ pre, ¬ NameMatches s x) →
        NameMatches s r →
        rv = finalStatus isdir r ∧ child2.first_sector = recFirstSector r ∧
          child2.length = recSize r ∧ child2.position = 0 := by
  have hseg := segment_plain s hchars hdot hdotdot
  have hlast : (strchrnul s 47).getD 0 0 = 0 := by rw [strchrnul_no_sep s hchars]; rfl
  by_cases hex : ∃ r ∈ rs, NameMatches s r
  · obtain ⟨pre, r, post, h1, h2, h3⟩ := first_match_exists (NameMatches s) rs hex
    obtain ⟨p2, hp2⟩ := openat_raw_single_some disk hs child parent rs s s isdir hd hin hseg
      hlast fuel hfuel pre r post h1 h2 h3
    refine ⟨_, _, p2, hp2, ?_, ?_⟩
    · constructor
      · intro h; exact absurd h (finalStatus_ne_enoent isdir r)
      · intro h; obtain ⟨x, hx, hm⟩ := hex; exact absurd hm (h x hx)
    · intro pre2 r2 post2 g1 g2 g3
      obtain ⟨p3, hp3⟩ := openat_raw_single_some disk hs child parent rs s s isdir hd hin
        hseg hlast fuel hfuel pre2 r2 post2 g1 g2 g3
      rw [hp2] at hp3
      simp only [Option.some.injEq, Prod.mk.injEq] at hp3
      obtain ⟨e1, e2, _⟩ := hp3
      rw [e1]
      refine ⟨rfl, ?_, ?_, ?_⟩
      · have := congrArg l9660_file.first_sector e2; simpa using this
      · have := congrArg l9660_file.length e2; simpa using this
      · rfl
  · have hno : ∀ r ∈ rs, ¬ NameMatches s r := fun r hr hm => hex ⟨r, hr, hm⟩
    obtain ⟨p2, hp2⟩ := openat_raw_single_none disk hs child parent rs s s isdir hd hin hseg
      fuel hfuel hno
    refine ⟨_, _, p2, hp2, ⟨fun _ => hno, fun _ => rfl⟩, ?_⟩
    intro pre r post g1 _ g3
    exact absurd g3 (hno r (by rw [g1]; simp))

/-- On a directory stream with position < length whose buffer holds the
sector of the position whenever the position is inside that sector, and whose
sector has a non-zero byte n at offset position mod 2048, l9660_readdir
returns L9660_OK with the record at that offset and advances the position (a
uint32_t) by n + n mod 2, which is at least 2 and at most 256. -/
theorem l9660_readdir_returns_record (disk : Disk) (f : l9660_file) (pd : Option Nat)
    (fuel : Nat) (s : Sector)
    (hsec : disk ((f.first_sector + f.position / 2048) % U32) = some s)
    (hlt : f.position < f.length)
    (hcur : f.position % 2048 ≠ 0 → f.buf = s)
    (hnz : (s (f.position % 2048)).val ≠ 0) :
    l9660_readdir disk (fuel + 1) f pd
      = some (L9660_OK,
          { f with
            buf := s
            position :=
              (f.position + ((s (f.position % 2048)).val + (s (f.position % 2048)).val % 2))
                % U32 },
          some (f.position % 2048)) ∧
    2 ≤ (s (f.position % 2048)).val + (s (f.position % 2048)).val % 2 ∧
    (s (f.position % 2048)).val + (s (f.position % 2048)).val % 2 ≤ 256 := by
  have hpre : prebuffer disk f = (L9660_OK, { f with buf := s }) := by
    unfold prebuffer buffer
    split
    · rw [hsec]
    · rename_i h
      rw [← hcur h]
  refine ⟨?_, ?_, ?_⟩
  · rw [l9660_readdir]
    have hnot : ¬ (f.position ≥ f.length) := by omega
    have hnz2 : byteAt s (f.position % 2048) ≠ 0 := hnz
    simp only [hnot, if_false, hpre, ne_eq, not_true_eq_false, fsectoff, hnz2]
    rfl
  · omega
  · have := (s (f.position % 2048)).isLt
    omega

/-! ## The claims -/

/-- C1: for every stream with position <= length (the length being a 32-bit
value), every requested size and a sector source that succeeds, l9660_read
returns L9660_OK, stores min(size, 2048 - position mod 2048, length -
position) in *read, advances the position by exactly that count and leaves
first_sector and length unchanged. -/
theorem l9660_read_contract (disk : Disk) (f : l9660_file) (size : Nat)
    (hs : Succeeds disk) (hpos : f.position ≤ f.length) (hlen : f.length < U32) :
    (l9660_read disk f size).status = L9660_OK ∧
    (l9660_read disk f size).read
      = some (min size (min (2048 - f.position % 2048) (f.length - f.position))) ∧
    (l9660_read disk f size).file.position
      = f.position + min size (min (2048 - f.position % 2048) (f.length - f.position)) ∧
    (l9660_read disk f size).file.first_sector = f.first_sector ∧
    (l9660_read disk f size).file.length = f.length := by
  obtain ⟨h1, h2, h3, h4⟩ := prebuffer_ok disk hs f
  unfold l9660_read
  simp only [h1, ne_eq, not_true_eq_false, if_false, fsectoff, h2, h3, h4]
  unfold U32 at *
  refine ⟨trivial, ?_, ?_, trivial, trivial⟩
  · congr 1
    split <;> split <;> omega
  · split <;> split <;> omega

/-- Witness of C1: a 4096-byte request at position 100 of the 5000-byte file reads the 1948 bytes up to the sector boundary. -/
theorem l9660_read_contract_witness :
    (l9660_read exDisk exReadmeFile 4096).status = L9660_OK ∧
    (l9660_read exDisk exReadmeFile 4096).read = some 1948 ∧
    (l9660_read exDisk exReadmeFile 4096).file.position = 2048 := by
  obtain ⟨h1, h2, h3, _, _⟩ :=
    l9660_read_contract exDisk exReadmeFile 4096 exDisk_succeeds (by decide) (by decide)
  exact ⟨h1, h2, h3⟩

/-- C2: for a freshly derived stream (position 0) of declared length L, any
sequence of positive request sizes and a sector source that always succeeds,
the loop calling l9660_read until the position is L terminates (any bound
above L on the number of calls is enough), every call returning L9660_OK, and
the concatenated chunks are the L bytes of the extent: byte i is byte
i mod 2048 of sector first_sector + i / 2048 (a 32-bit sector number). -/
theorem read_loop_yields_extent (disk : Disk) (hs : Succeeds disk) (sizes : Nat → Nat)
    (hsz : ∀ k, 0 < sizes k) (f : l9660_file) (hf : f.position = 0) (hlen : f.length < U32)
    (fuel : Nat) (hfuel : f.length < fuel) :
    ∃ f2, read_loop disk sizes fuel 0 f
        = some (L9660_OK, (List.range f.length).map (extByte disk f.first_sector), f2) ∧
      f2.position = f.length ∧
      ((List.range f.length).map (extByte disk f.first_sector)).length = f.length := by
  have hc : CacheCurrent disk f := fun h => absurd (by rw [hf]) h
  obtain ⟨f2, h1, h2⟩ := read_loop_from disk hs sizes hsz fuel 0 f (by omega) hlen hc (by omega)
  refine ⟨f2, ?_, h2, by simp⟩
  rw [h1, hf, Nat.sub_zero, List.range_eq_range']

/-- Witness of C2: reading the 5000-byte file in requests of 128 bytes. -/
theorem read_loop_yields_extent_witness :
    ∃ f2, read_loop exDisk (fun _ => 128) 5001 0 exReadmeFresh
        = some (L9660_OK, (List.range 5000).map (extByte exDisk 30), f2) ∧
      f2.position = 5000 ∧ ((List.range 5000).map (extByte exDisk 30)).length = 5000 :=
  read_loop_yields_extent exDisk exDisk_succeeds (fun _ => 128) (by intro k; show 0 < 128; decide)
    exReadmeFresh rfl (by decide) 5001 (by decide)

/-- C3, the code at the failing input: the sample root directory holds, in
sector 23, the records named by the self marker, the parent marker,
README.TXT;1 and A, so no record matches the segment Z.  Looked up in the
directory declared with a length of 2048 the name Z gives L9660_ENOENT; looked
up in the same directory declared with a length of 4096, the second sector
being all zero, openat_raw does not return within any number of passes,
whichever kind of object is wanted. -/
theorem openat_raw_absent_name_never_returns :
    exRootRecords.map recName
      = [[0], [1], [82, 69, 65, 68, 77, 69, 46, 84, 88, 84, 59, 49], [65]] ∧
    (l9660_openat exDisk 10 exBlank exRoot [90]).map (fun x => x.1) = some L9660_ENOENT ∧
    ∀ fuel isdir, openat_raw exDisk fuel exBlank exRootLong [90] isdir = none := by
  refine ⟨by decide, by decide, ?_⟩
  have k4 : ∀ n pd, openat_scan exDisk [90] 1 n (exLongAt 148) pd = none := by
    intro n pd
    cases n with
    | zero => rfl
    | succ m => exact openat_scan_call_none exDisk _ _ m _ pd (exLong_stuck_any (m + 1) pd)
  have k3 : ∀ n pd, openat_scan exDisk [90] 1 n (exLongAt 114) pd = none := by
    intro n pd
    cases n with
    | zero => rfl
    | succ m =>
      rw [openat_scan_step exDisk [90] 1 m (exLongAt 114) pd (exLongAt 148) 114 rfl,
        if_neg (by decide)]
      exact k4 m _
  have k2 : ∀ n pd, openat_scan exDisk [90] 1 n (exLongAt 68) pd = none := by
    intro n pd
    cases n with
    | zero => rfl
    | succ m =>
      rw [openat_scan_step exDisk [90] 1 m (exLongAt 68) pd (exLongAt 114) 68 rfl,
        if_neg (by decide)]
      exact k3 m _
  have k1 : ∀ n pd, openat_scan exDisk [90] 1 n (exLongAt 34) pd = none := by
    intro n pd
    cases n with
    | zero => rfl
    | succ m =>
      rw [openat_scan_step exDisk [90] 1 m (exLongAt 34) pd (exLongAt 68) 34 rfl,
        if_neg (by decide)]
      exact k2 m _
  have k0 : ∀ n, openat_scan exDisk [90] 1 n exRootLong none = none := by
    intro n
    cases n with
    | zero => rfl
    | succ m =>
      rw [openat_scan_step exDisk [90] 1 m exRootLong none (exLongAt 34) 0 rfl,
        if_neg (by decide)]
      exact k1 m _
  intro fuel isdir
  exact openat_raw_scan_none exDisk exBlank exRootLong [90] isdir k0 fuel

/-- C5, the code at the failing input: on the second sample volume the path
A/B, whose first segment matches a record with the directory flag set, is
refused with L9660_ENOTDIR at that segment, while the path F/B, whose first
segment matches a record with the flag clear, is followed into the extent of
that file and resolves to the record B found there. -/
theorem openat_raw_midpath_flag_inverted :
    (l9660_openat exDiskSlash 10 exBlank exRoot [65, 47, 66]).map (fun x => x.1)
      = some L9660_ENOTDIR ∧
    (l9660_openat exDiskSlash 10 exBlank exRoot [70, 47, 66]).map
      (fun x => (x.1, x.2.1.first_sector, x.2.1.length)) = some (L9660_OK, 40, 10) := by
  decide

/-- C6: when the loop of openat_raw over the path arrives at its last segment
(last, without separator) in a well-formed directory standing at position 0,
and r is the first record of that directory whose stored name matches the
segment (last itself, or the marker byte 0 for "." and 1 for ".."), the
result is decided by the directory flag of r, bit 1 of its flags byte (byte
25 of the record), against the kind of object wanted: if the flag is set,
l9660_opendirat returns L9660_OK and l9660_openat returns L9660_ENOTFILE; if
it is clear, l9660_opendirat returns L9660_ENOTDIR and l9660_openat returns
L9660_OK.  For a path of one segment the loop is at its last segment from the
start, in the parent directory. -/
theorem final_segment_flag_decides (disk : Disk) (hs : Succeeds disk)
    (child parent : l9660_file) (name : List Nat) (fuel : Nat)
    (st : OpenState) (last : List Nat) (k : Nat) (rs : List (List Byte))
    (hreach : openat_walk disk fuel
        { child := child, parent := (l9660_seek disk parent Whence.SEEK_SET 0).2,
          onChild := false, dent := none, dentChild := false } name
      = openat_walk disk (k + 1) st last)
    (hlast : ∀ c ∈ last, c ≠ 47 ∧ c ≠ 0)
    (seg : List Nat)
    (hseg : seg = if last = [46] then [0] else if last = [46, 46] then [1] else last)
    (hpos : st.dir.position = 0)
    (hd : DirExtent disk st.dir.first_sector st.dir.length rs)
    (hin : ∀ r ∈ rs, NameInside r) (hfuel : rs.length + 2 ≤ k)
    (pre : List (List Byte)) (r : List Byte) (post : List (List Byte))
    (hrs : rs = pre ++ r :: post)
    (hno : ∀ x ∈ pre, ¬ NameMatches seg x)
    (hm : NameMatches seg r) :
    ((r.getD 25 0).val / 2 % 2 = 1 →
      (l9660_opendirat disk fuel child parent name).map (fun x => x.1) = some L9660_OK ∧
      (l9660_openat disk fuel child parent name).map (fun x => x.1) = some L9660_ENOTFILE) ∧
    ((r.getD 25 0).val / 2 % 2 = 0 →
      (l9660_opendirat disk fuel child parent name).map (fun x => x.1) = some L9660_ENOTDIR ∧
      (l9660_openat disk fuel child parent name).map (fun x => x.1) = some L9660_OK) := by
  rw [hseg, ← firstSegment_last last hlast] at hno hm
  obtain ⟨f2, off, h, hh⟩ := scan_segment_some disk hs st.dir rs last k st.dent hpos hd hin
    hfuel pre r post hrs hno hm
  have hinr : NameInside r := hin r (by rw [hrs]; simp)
  have e4 : dirent_flags f2.buf off = (r.getD 25 0).val := by
    unfold dirent_flags byteAt OFF_flags
    rw [hh 25 (by unfold NameInside OFF_name at hinr; omega)]
  have hl : (strchrnul last 47).getD 0 0 = 0 := by rw [strchrnul_no_sep last hlast]; rfl
  have hw : ∃ st2, openat_walk disk (k + 1) st last = some (L9660_OK, st2) ∧
      dirent_flags st2.dentBuf (st2.dent.getD 0) = (r.getD 25 0).val := by
    rw [openat_walk, h]
    simp only [ne_eq, not_true_eq_false, if_false, Option.getD_some, hl, false_and]
    refine ⟨_, rfl, ?_⟩
    rw [← e4]
    unfold OpenState.dentBuf OpenState.setDir
    cases st.onChild <;> rfl
  obtain ⟨st2, hw1, hw2⟩ := hw
  rw [seek_set_zero] at hreach
  simp only at hreach
  have hbit : (r.getD 25 0).val &&& DENT_ISDIR ≠ 0 ↔ (r.getD 25 0).val / 2 % 2 = 1 := by
    unfold DENT_ISDIR
    have e : (r.getD 25 0).val &&& 2 = ((r.getD 25 0).val.testBit 1).toNat * 2 ^ 1 :=
      Nat.and_two_pow _ 1
    rw [e, Nat.testBit_to_div_mod]
    by_cases h : (r.getD 25 0).val / 2 ^ 1 % 2 = 1
    · simp [h]
    · simp [h]
  unfold l9660_opendirat l9660_openat openat_raw
  rw [seek_set_zero]
  by_cases hz : (r.getD 25 0).val &&& DENT_ISDIR = 0
  · have hb : ¬ ((r.getD 25 0).val / 2 % 2 = 1) := fun h => (hbit.mpr h) hz
    simp only [ne_eq, not_true_eq_false, if_false, hreach, hw1, if_true, Bool.false_eq_true,
      hw2, hz, Option.map_some']
    exact ⟨fun h => absurd h hb, fun _ => ⟨trivial, trivial⟩⟩
  · have hb : (r.getD 25 0).val / 2 % 2 = 1 := hbit.mp hz
    simp only [ne_eq, not_true_eq_false, if_false, hreach, hw1, if_true, Bool.false_eq_true,
      hw2, hz, Option.map_some', not_false_eq_true]
    exact ⟨fun _ => ⟨trivial, trivial⟩, fun h => by omega⟩

/-- Witness of C6: the path F/B of the second sample volume, whose last
segment B matches the file record B (flag clear) of the directory in sector
25, and the path A of the sample volume, which matches the directory record A
(flag set) of the root directory. -/
theorem final_segment_flag_decides_witness :
    (l9660_opendirat exDiskSlash 10 exBlank exRoot [70, 47, 66]).map (fun x => x.1)
      = some L9660_ENOTDIR ∧
    (l9660_openat exDiskSlash 10 exBlank exRoot [70, 47, 66]).map (fun x => x.1)
      = some L9660_OK ∧
    (l9660_opendirat exDisk 10 exBlank exRoot [65]).map (fun x => x.1) = some L9660_OK ∧
    (l9660_openat exDisk 10 exBlank exRoot [65]).map (fun x => x.1) = some L9660_ENOTFILE := by
  have h1 := (final_segment_flag_decides exDiskSlash exDiskSlash_succeeds exBlank exRoot
    [70, 47, 66] 10 exWalkF [66] 8 exARecords rfl (by decide) [66] (by decide) rfl
    exSlashA_dirExtent
    exA_nameInside (by decide) [exSelfA, exParent] exFileB [] rfl
    (not_nameMatches_all _ _ (by decide)) (Or.inl (by decide))).2 (by decide)
  have h2 := (final_segment_flag_decides exDisk exDisk_succeeds exBlank exRoot
    [65] 10 exWalkStart [65] 9 exRootRecords rfl (by decide) [65] (by decide) rfl
    exRoot_dirExtent
    exRoot_nameInside (by decide) [exSelf, exParent, exReadme] exDirA [] rfl
    (not_nameMatches_all _ _ (by decide)) (Or.inl (by decide))).1 (by decide)
  exact ⟨h1.1, h1.2, h2.1, h2.2⟩

/-- C7: in a well-formed directory whose self record (name the single byte 0,
directory flag set, describing the extent of the directory itself) is the
first record matching the self marker, and whose parent record (name the
single byte 1, directory flag set, describing the extent pfs, plen of the
parent) is the first record matching the parent marker, l9660_opendirat with
path "." returns L9660_OK with the first_sector and length of the directory,
and with path ".." returns L9660_OK with first_sector pfs and length plen. -/
theorem opendirat_dot_and_dotdot (disk : Disk) (hs : Succeeds disk)
    (dir parent : l9660_file) (rs : List (List Byte))
    (hd : DirExtent disk parent.first_sector parent.length rs)
    (hin : ∀ r ∈ rs, NameInside r)
    (pre : List (List Byte)) (self : List Byte) (post : List (List Byte))
    (hself : rs = pre ++ self :: post) (hpre : ∀ x ∈ pre, ¬ NameMatches [0] x)
    (hsname : recName self = [0]) (hsdir : recIsDir self)
    (hsext : recFirstSector self = parent.first_sector ∧ recSize self = parent.length)
    (pre2 : List (List Byte)) (par : List Byte) (post2 : List (List Byte))
    (hpar : rs = pre2 ++ par :: post2) (hpre2 : ∀ x ∈ pre2, ¬ NameMatches [1] x)
    (hpname : recName par = [1]) (hpdir : recIsDir par)
    (pfs plen : Nat) (hpext : recFirstSector par = pfs ∧ recSize par = plen)
    (fuel : Nat) (hfuel : rs.length + 3 ≤ fuel) :
    (∃ d p2, l9660_opendirat disk fuel dir parent [46] = some (L9660_OK, d, p2) ∧
      d.first_sector = parent.first_sector ∧ d.length = parent.length ∧ d.position = 0) ∧
    (∃ d p2, l9660_opendirat disk fuel dir parent [46, 46] = some (L9660_OK, d, p2) ∧
      d.first_sector = pfs ∧ d.length = plen ∧ d.position = 0) := by
  constructor
  · obtain ⟨p2, h⟩ := openat_raw_single_some disk hs dir parent rs [46] [0] true hd hin
      (by decide) (by decide) fuel hfuel pre self post hself hpre (Or.inl hsname)
    rw [finalStatus_dir self hsdir] at h
    exact ⟨_, p2, h, hsext.1, hsext.2, rfl⟩
  · obtain ⟨p2, h⟩ := openat_raw_single_some disk hs dir parent rs [46, 46] [1] true hd hin
      (by decide) (by decide) fuel hfuel pre2 par post2 hpar hpre2 (Or.inl hpname)
    rw [finalStatus_dir par hpdir] at h
    exact ⟨_, p2, h, hpext.1, hpext.2, rfl⟩

/-- Witness of C7: the sample root directory, which is its own parent. -/
theorem opendirat_dot_and_dotdot_witness :
    (∃ d p2, l9660_opendirat exDisk 10 exBlank exRoot [46] = some (L9660_OK, d, p2) ∧
      d.first_sector = exRoot.first_sector ∧ d.length = exRoot.length ∧ d.position = 0) ∧
    (∃ d p2, l9660_opendirat exDisk 10 exBlank exRoot [46, 46] = some (L9660_OK, d, p2) ∧
      d.first_sector = 23 ∧ d.length = 2048 ∧ d.position = 0) :=
  opendirat_dot_and_dotdot exDisk exDisk_succeeds exBlank exRoot exRootRecords
    exRoot_dirExtent exRoot_nameInside
    [] exSelf [exParent, exReadme, exDirA] rfl (by simp) (by decide)
    (by unfold recIsDir; decide) (by decide)
    [exSelf] exParent [exReadme, exDirA] rfl
    (by
      intro x hx
      rw [List.mem_singleton.mp hx]
      rintro (h | ⟨suffix, h⟩)
      · exact absurd h (by decide)
      · have e : recName exSelf = [0] := by decide
        rw [e] at h
        simp at h)
    (by decide) (by unfold recIsDir; decide) 23 2048 (by decide) 10 (by decide)

/-- C8, the code at the failing input: the sample root directory holds four
records in its first sector; declared with a length of 2048 the enumeration
returns the four records and then the null record, but declared with a
length of 4096, the second sector being all zero, the call following the
four records never returns, within any number of passes, and so the
enumeration never ends. -/
theorem readdir_loop_hangs_on_trailing_zero_sector :
    (readdir_loop exDisk 6 exRoot).map (fun x => (x.1, x.2.1, x.2.2.position))
      = some (exRootRecords, L9660_OK, 2048) ∧
    (∀ fuel, l9660_readdir exDisk fuel (exLongAt 148) none = none) ∧
    ∀ fuel, readdir_loop exDisk fuel exRootLong = none := by
  refine ⟨by decide, exLong_stuck, ?_⟩
  have k4 : ∀ n, readdir_loop exDisk n (exLongAt 148) = none := by
    intro n
    cases n with
    | zero => rfl
    | succ m => exact readdir_loop_call_none exDisk m _ (exLong_stuck (m + 1))
  have k3 : ∀ n, readdir_loop exDisk n (exLongAt 114) = none := by
    intro n
    cases n with
    | zero => rfl
    | succ m => exact readdir_loop_step_none exDisk m _ (exLongAt 148) 114 rfl (k4 m)
  have k2 : ∀ n, readdir_loop exDisk n (exLongAt 68) = none := by
    intro n
    cases n with
    | zero => rfl
    | succ m => exact readdir_loop_step_none exDisk m _ (exLongAt 114) 68 rfl (k3 m)
  have k1 : ∀ n, readdir_loop exDisk n (exLongAt 34) = none := by
    intro n
    cases n with
    | zero => rfl
    | succ m => exact readdir_loop_step_none exDisk m _ (exLongAt 68) 34 rfl (k2 m)
  intro n
  cases n with
  | zero => rfl
  | succ m => exact readdir_loop_step_none exDisk m _ (exLongAt 34) 0 rfl (k1 m)

/-- C9, the code at the failing input: for the directory stream of length
4096 standing at position 2048, the start of an all-zero sector,
fnextsectpos yields the position itself, and l9660_readdir does not return
within any number of passes. -/
theorem readdir_zero_at_sector_start_never_returns :
    fnextsectpos exStuck = exStuck.position ∧
    ∀ fuel, l9660_readdir exDisk fuel exStuck none = none := by
  refine ⟨by decide, ?_⟩
  intro fuel
  induction fuel with
  | zero => rfl
  | succ n ih =>
    have e : prebuffer exDisk exStuck = (L9660_OK, exStuck) := rfl
    have e2 : ({ exStuck with position := fnextsectpos exStuck } : l9660_file) = exStuck := rfl
    rw [l9660_readdir]
    simp only [e, e2, ih]
    rfl

/-- C10, the code at the failing inputs.  (1) The fresh root directory stream
of the sample volume (length 2048, buffer never filled) is moved to position
34 by l9660_seek, which returns L9660_OK; byte 34 of sector 23 is 34, the
length byte of the parent record stored there, but l9660_readdir returns the
null record with the position at 2048.  (2) The directory stream over the
sectors 23 to 25, after one call of l9660_readdir and l9660_seek to 4096 and
then to 4164, stands at offset 68 of sector 25, where the 34-byte record B is
stored; l9660_readdir returns the record README.TXT;1 of sector 23, still in
the buffer, and advances the position by 46. -/
theorem readdir_after_seek_decodes_stale_buffer :
    ((l9660_seek exDisk exRoot Whence.SEEK_SET 34).1 = L9660_OK ∧
      (l9660_seek exDisk exRoot Whence.SEEK_SET 34).2.position = 34 ∧
      (l9660_seek exDisk exRoot Whence.SEEK_SET 34).2.length = 2048 ∧
      (extByte exDisk 23 34).val = 34 ∧
      (List.range 34).map (fun j => extByte exDisk 23 (34 + j)) = exParent ∧
      (l9660_readdir exDisk 3 (l9660_seek exDisk exRoot Whence.SEEK_SET 34).2 none).map
        (fun x => (x.1, x.2.1.position, x.2.2)) = some (L9660_OK, 2048, none)) ∧
    (exThreeSought.map (fun f => (f.first_sector, f.position, f.length))
        = some (23, 4164, 6144) ∧
      (extByte exDisk 23 4164).val = 34 ∧
      (List.range 34).map (fun j => extByte exDisk 23 (4164 + j)) = exFileB ∧
      (exThreeSought.bind (fun f => l9660_readdir exDisk 3 f none)).map
        (fun x => (x.1, x.2.1.position, x.2.2, dirent_bytes x.2.1.buf (x.2.2.getD 0)))
        = some (L9660_OK, 4210, some 68, exReadme)) := by
  decide

/-- C11: l9660_openfs reads sector 16 first and classifies it: when the
read fails it returns L9660_EIO (the session untouched); when the sector was
read and bytes 1..5 are not CD001 it returns L9660_EBADFS; when they are and
the type byte is 1 it returns L9660_OK with the sector, and so its root
directory record, retained in the session; when the type byte is 255 it
returns L9660_EBADFS.  A sector 16 without the magic never gives L9660_OK,
whatever the bound on the number of passes. -/
theorem l9660_openfs_first_sector (disk : Disk) (fs : l9660_fs) (fuel : Nat) :
    (disk 16 = none → l9660_openfs disk (fuel + 1) fs = some ( L9660_EIO, fs)) ∧
    (∀ s, disk 16 = some s → magic_ok s = false →
      l9660_openfs disk (fuel + 1) fs = some (L9660_EBADFS, { pvd := s })) ∧
    (∀ s, disk 16 = some s → magic_ok s = true → byteAt s OFF_vdesc_type = 1 →
      l9660_openfs disk (fuel + 1) fs = some (L9660_OK, { pvd := s })) ∧
    (∀ s, disk 16 = some s → magic_ok s = true → byteAt s OFF_vdesc_type = 255 →
      l9660_openfs disk (fuel + 1) fs = some (L9660_EBADFS, { pvd := s })) ∧
    (∀ s n fs2, disk 16 = some s → magic_ok s = false →
      l9660_openfs disk n fs ≠ some (L9660_OK, fs2)) := by
  refine ⟨?_, ?_, ?_, ?_, ?_⟩
  · intro h
    unfold l9660_openfs
    rw [l9660_openfs_loop, h]
  · intro s hsec hm
    unfold l9660_openfs
    rw [openfs_loop_step disk fuel 16 fs s hsec, if_pos hm]
  · intro s hsec hm ht
    unfold l9660_openfs
    rw [openfs_loop_step disk fuel 16 fs s hsec, hm, if_neg (by simp), if_pos ht]
  · intro s hsec hm ht
    unfold l9660_openfs
    rw [openfs_loop_step disk fuel 16 fs s hsec, hm, if_neg (by simp),
      if_neg (by rw [ht]; decide), if_pos ht]
  · intro s n fs2 hsec hm
    unfold l9660_openfs
    cases n with
    | zero => simp [l9660_openfs_loop]
    | succ m =>
      rw [openfs_loop_step disk m 16 fs s hsec, if_pos hm]
      simp

/-- Witness of C11: mounting the sample volume, whose sector 16 is a primary
volume descriptor. -/
theorem l9660_openfs_first_sector_witness :
    l9660_openfs exVolume (0 + 1) exFs = some (L9660_OK, { pvd := exPvd }) :=
  (l9660_openfs_first_sector exVolume exFs 0).2.2.1 exPvd rfl (by decide) (by decide)

/-- C12, the code at the failing input: on the volume whose sector 16 is a
boot record (type 0, magic CD001) and whose sector 17 is a primary volume
descriptor (type 1, magic CD001), l9660_openfs does not return within any
number of passes: idx stays 16 and every pass reads the boot record again. -/
theorem l9660_openfs_rereads_sector_16 :
    (exVolumeBoot 16).map (fun s => (magic_ok s, byteAt s OFF_vdesc_type)) = some (true, 0) ∧
    (exVolumeBoot 17).map (fun s => (magic_ok s, byteAt s OFF_vdesc_type)) = some (true, 1) ∧
    ∀ fuel, l9660_openfs exVolumeBoot fuel exFs = none := by
  refine ⟨by decide, by decide, ?_⟩
  intro fuel
  exact openfs_loop_stuck exVolumeBoot 16 exBootRecord rfl (by decide) (by decide) (by decide)
    fuel exFs

/-- C13: l9660_fs_open_root always returns L9660_OK and sets the stream to
first_sector = the 32-bit value of the sector field of the retained root
record, length = that of its size field, position = 0; READ32 of a field
with the little-endian bytes b0, b1, b2, b3 is b0 + 2^8 b1 + 2^16 b2 +
2^24 b3 for all byte values; the primary volume descriptor of the sample
volume, with root extent sector 23 and size 4096, gives the stream
(23, 4096, 0). -/
theorem l9660_fs_open_root_stream (dir : l9660_file) (fs : l9660_fs) :
    (l9660_fs_open_root dir fs).1 = L9660_OK ∧
    (l9660_fs_open_root dir fs).2.first_sector
      = byteAt fs.pvd (OFF_root_dir_ent + OFF_sector)
        + 2 ^ 8 * byteAt fs.pvd (OFF_root_dir_ent + OFF_sector + 1)
        + 2 ^ 16 * byteAt fs.pvd (OFF_root_dir_ent + OFF_sector + 2)
        + 2 ^ 24 * byteAt fs.pvd (OFF_root_dir_ent + OFF_sector + 3) ∧
    (l9660_fs_open_root dir fs).2.length
      = byteAt fs.pvd (OFF_root_dir_ent + OFF_size)
        + 2 ^ 8 * byteAt fs.pvd (OFF_root_dir_ent + OFF_size + 1)
        + 2 ^ 16 * byteAt fs.pvd (OFF_root_dir_ent + OFF_size + 2)
        + 2 ^ 24 * byteAt fs.pvd (OFF_root_dir_ent + OFF_size + 3) ∧
    (l9660_fs_open_root dir fs).2.position = 0 ∧
    (∀ (b : Sector) (p : Nat), READ32 b p
      = byteAt b p + 2 ^ 8 * byteAt b (p + 1) + 2 ^ 16 * byteAt b (p + 2)
        + 2 ^ 24 * byteAt b (p + 3)) ∧
    (l9660_openfs exVolume 1 exFs).map
      (fun x => (x.1, (l9660_fs_open_root exBlank x.2).2.first_sector,
        (l9660_fs_open_root exBlank x.2).2.length,
        (l9660_fs_open_root exBlank x.2).2.position)) = some (L9660_OK, 23, 4096, 0) := by
  refine ⟨rfl, READ32_eq_sum _ _, READ32_eq_sum _ _, rfl, fun b p => READ32_eq_sum b p,
    by decide⟩

/-- C14: for every stream, origin and offset, whatever the sector source
does, l9660_seek leaves first_sector and length unchanged and sets the
position, in arithmetic modulo 2^32, to offset for SEEK_SET, to position +
offset for SEEK_CUR and to length - offset for SEEK_END (an origin without
a case leaves it as it is); l9660_tell then returns that position. -/
theorem l9660_seek_position (disk : Disk) (f : l9660_file) (whence : Whence) (offset : Int) :
    (l9660_seek disk f whence offset).2.first_sector = f.first_sector ∧
    (l9660_seek disk f whence offset).2.length = f.length ∧
    l9660_tell (l9660_seek disk f whence offset).2
      = (l9660_seek disk f whence offset).2.position ∧
    (l9660_seek disk f whence offset).2.position =
      match whence with
      | Whence.SEEK_SET => (offset % (U32 : Int)).toNat
      | Whence.SEEK_CUR => (((f.position : Int) + offset) % (U32 : Int)).toNat
      | Whence.SEEK_END => (((f.length : Int) - offset) % (U32 : Int)).toNat
      | Whence.SEEK_OTHER => f.position := by
  have hb : ∀ g : l9660_file, (buffer disk g).2.first_sector = g.first_sector ∧
      (buffer disk g).2.length = g.length ∧ (buffer disk g).2.position = g.position := by
    intro g
    unfold buffer
    split <;> exact ⟨rfl, rfl, rfl⟩
  have key : ∀ (g : l9660_file) (c : Prop) [Decidable c],
      (if c then buffer disk g else (L9660_OK, g)).2.first_sector = g.first_sector ∧
      (if c then buffer disk g else (L9660_OK, g)).2.length = g.length ∧
      (if c then buffer disk g else (L9660_OK, g)).2.position = g.position := by
    intro g c _
    split
    · exact hb g
    · exact ⟨rfl, rfl, rfl⟩
  cases whence
  · exact ⟨(key _ _).1, (key _ _).2.1, rfl, (key _ _).2.2⟩
  · exact ⟨(key _ _).1, (key _ _).2.1, rfl, (key _ _).2.2⟩
  · exact ⟨(key _ _).1, (key _ _).2.1, rfl, (key _ _).2.2⟩
  · exact ⟨(key _ _).1, (key _ _).2.1, rfl, (key _ _).2.2⟩

/-- Witness of C14: seeking the 5000-byte file to 100 bytes before its end,
and one byte back from position 100. -/
theorem l9660_seek_position_witness :
    (l9660_seek exDisk exReadmeFresh Whence.SEEK_END 100).2.position = 4900 ∧
    (l9660_seek exDisk exReadmeFile Whence.SEEK_CUR (-1)).2.position = 99 := by
  have h1 := (l9660_seek_position exDisk exReadmeFresh Whence.SEEK_END 100).2.2.2
  have h2 := (l9660_seek_position exDisk exReadmeFile Whence.SEEK_CUR (-1)).2.2.2
  exact ⟨h1.trans (by decide), h2.trans (by decide)⟩

/-- C15, the code at the failing inputs.  A freshly derived stream over
sector 23, its buffer never filled (all zero here), is sought to position 2:
the read that follows returns the four bytes of the unfilled buffer, not the
extent bytes 23, 0, 0, 0.  A stream over the sectors 24 and 25 is read to
position 2048 and sought to position 2050: the read that follows returns
bytes of the buffered sector 24, not the extent bytes 25, 0, 0, 0 of
sector 25. -/
theorem read_after_seek_returns_stale_buffer :
    (l9660_read exDisk (l9660_seek exDisk exRoot Whence.SEEK_SET 2).2 4).data
      = [0, 0, 0, 0] ∧
    (List.range' 2 4).map (extByte exDisk 23) = [23, 0, 0, 0] ∧
    (l9660_read exDisk exTwoSectors 2048).file.position = 2048 ∧
    (l9660_read exDisk
      (l9660_seek exDisk (l9660_read exDisk exTwoSectors 2048).file Whence.SEEK_SET 2050).2
      4).data = [0, 0, 0, 0] ∧
    (List.range' 2050 4).map (extByte exDisk 24) = [25, 0, 0, 0] := by
  decide

/-- C16, the code at the failing input: the stream over the single sector 30
stands at position = length = 2048 and the sector source succeeds on sector
30; l9660_read asks for sector 31, the read fails, and the call returns
L9660_EIO without writing *read.  l9660_readdir in the same state returns
the null record with L9660_OK. -/
theorem l9660_read_at_end_fetches_past_extent :
    (exDiskOnly30 30).isSome = true ∧
    exAtEnd.position = exAtEnd.length ∧
    (l9660_read exDiskOnly30 exAtEnd 10).status = L9660_EIO ∧
    (l9660_read exDiskOnly30 exAtEnd 10).read = none ∧
    (l9660_readdir exDiskOnly30 1 exAtEnd none).map (fun x => (x.1, x.2.2))
      = some (L9660_OK, none) := by
  decide

/-- C17, counterexample: the 5000-byte stream at position 0 satisfies
position <= length, and l9660_seek to 5001 returns L9660_OK with position
5001; the directory stream of length 150 at position 148 satisfies it, and
l9660_readdir returns L9660_OK with position 2048. -/
theorem position_invariant_counterexample :
    exReadmeFresh.position ≤ exReadmeFresh.length ∧
    (fun x : l9660_status × l9660_file => (x.1, x.2.position, x.2.length))
      (l9660_seek exDisk exReadmeFresh Whence.SEEK_SET 5001) = (L9660_OK, 5001, 5000) ∧
    exShortDir.position ≤ exShortDir.length ∧
    (l9660_readdir exDisk 2 exShortDir none).map
      (fun x => (x.1, x.2.1.position, x.2.1.length)) = some (L9660_OK, 2048, 150) := by
  decide

/-- C17, amended: position <= length holds for the stream l9660_fs_open_root
sets up and for the child stream of every openat_raw call (l9660_openat,
l9660_opendirat) that returns L9660_OK, and l9660_read preserves it on every
stream whose length is a 32-bit value, whatever the sector source does. -/
theorem position_invariant_open_and_read (disk : Disk) (dir : l9660_file) (fs : l9660_fs)
    (fuel : Nat) (child parent : l9660_file) (name : List Nat) (isdir : Bool)
    (c p : l9660_file)
    (hopen : openat_raw disk fuel child parent name isdir = some (L9660_OK, c, p))
    (f : l9660_file) (size : Nat) (hpos : f.position ≤ f.length) (hlen : f.length < U32) :
    (l9660_fs_open_root dir fs).2.position ≤ (l9660_fs_open_root dir fs).2.length ∧
    c.position ≤ c.length ∧
    (l9660_read disk f size).file.position ≤ (l9660_read disk f size).file.length := by
  refine ⟨Nat.zero_le _, ?_, read_keeps_position_le disk f size hpos hlen⟩
  unfold openat_raw at hopen
  rw [seek_set_zero] at hopen
  simp only [ne_eq, not_true_eq_false, if_false] at hopen
  cases hw : openat_walk disk fuel
      { child := child, parent := { parent with position := 0 }, onChild := false,
        dent := none, dentChild := false } name with
  | none => rw [hw] at hopen; simp at hopen
  | some res =>
    obtain ⟨rv1, st⟩ := res
    rw [hw] at hopen
    simp only at hopen
    by_cases hrv : rv1 = L9660_OK
    · subst hrv
      have h0 := openat_walk_child_position disk fuel _ name st hw
      have hc : c = st.child := by
        simp only [not_true_eq_false, if_false] at hopen
        split at hopen <;> split at hopen <;>
          simp only [Option.some.injEq, Prod.mk.injEq] at hopen
        all_goals exact hopen.2.1.symm
      rw [hc, h0]
      exact Nat.zero_le _
    · rw [if_pos hrv] at hopen
      simp only [Option.some.injEq, Prod.mk.injEq] at hopen
      exact absurd hopen.1 hrv

/-- Witness of C17 as amended: the root of the sample volume, the directory A
opened in it, and a read of the 5000-byte file. -/
theorem position_invariant_open_and_read_witness :
    (l9660_fs_open_root exBlank { pvd := exPvd }).2.position
      ≤ (l9660_fs_open_root exBlank { pvd := exPvd }).2.length ∧
    exWalkA.child.position ≤ exWalkA.child.length ∧
    (l9660_read exDisk exReadmeFile 4096).file.position
      ≤ (l9660_read exDisk exReadmeFile 4096).file.length :=
  position_invariant_open_and_read exDisk exBlank { pvd := exPvd } 10 exBlank exRoot [65] true
    exWalkA.child exWalkA.parent rfl exReadmeFile 4096 (by decide) (by decide)

/-- C18: l9660_seek with its sector-source calls traced returns what
l9660_seek returns, and the calls it makes are: exactly one, for sector
first_sector + new position / 2048 (a 32-bit sector number), when the new
position lies in another sector than the position before and is not on a
sector boundary; none in every other case. -/
theorem l9660_seek_fetches (disk : Disk) (f : l9660_file) (whence : Whence) (offset : Int) :
    (l9660_seek_traced disk f whence offset).1 = (l9660_seek disk f whence offset).1 ∧
    (l9660_seek_traced disk f whence offset).2.1 = (l9660_seek disk f whence offset).2 ∧
    (l9660_seek_traced disk f whence offset).2.2 =
      if (l9660_seek disk f whence offset).2.position / 2048 ≠ f.position / 2048
          ∧ (l9660_seek disk f whence offset).2.position % 2048 ≠ 0
      then [(f.first_sector + (l9660_seek disk f whence offset).2.position / 2048) % U32]
      else [] := by
  have hb : ∀ g : l9660_file, (buffer disk g).2.position = g.position := by
    intro g
    unfold buffer
    split <;> rfl
  have key : ∀ (g : l9660_file),
      let r := if fsector g ≠ fsector f ∧ fsectoff g ≠ 0 then buffer disk g else (L9660_OK, g)
      let t := if fsector g ≠ fsector f ∧ fsectoff g ≠ 0 then buffer_traced disk g
        else (L9660_OK, g, [])
      g.first_sector = f.first_sector →
      t.1 = r.1 ∧ t.2.1 = r.2 ∧
      t.2.2 = if r.2.position / 2048 ≠ f.position / 2048 ∧ r.2.position % 2048 ≠ 0
        then [(f.first_sector + r.2.position / 2048) % U32] else [] := by
    intro g r t hfs
    by_cases hc : fsector g ≠ fsector f ∧ fsectoff g ≠ 0
    · have hr : r = buffer disk g := if_pos hc
      have ht : t = buffer_traced disk g := if_pos hc
      rw [hr, ht, buffer_traced_eq, hb g]
      refine ⟨rfl, rfl, ?_⟩
      rw [← hfs]
      exact (if_pos hc).symm
    · have hr : r = (L9660_OK, g) := if_neg hc
      have ht : t = (L9660_OK, g, []) := if_neg hc
      rw [hr, ht]
      refine ⟨rfl, rfl, ?_⟩
      exact (if_neg hc).symm
  cases whence
  · exact key _ rfl
  · exact key _ rfl
  · exact key _ rfl
  · exact key _ rfl

/-- Witness of C18: seeks of the 5000-byte file from position 100 to 100 and
to 2048 fetch nothing, the seek to 2049 fetches sector 31. -/
theorem l9660_seek_fetches_witness :
    (l9660_seek_traced exDisk exReadmeFile Whence.SEEK_SET 100).2.2 = [] ∧
    (l9660_seek_traced exDisk exReadmeFile Whence.SEEK_SET 2048).2.2 = [] ∧
    (l9660_seek_traced exDisk exReadmeFile Whence.SEEK_SET 2049).2.2 = [31] := by
  have h1 := (l9660_seek_fetches exDisk exReadmeFile Whence.SEEK_SET 100).2.2
  have h2 := (l9660_seek_fetches exDisk exReadmeFile Whence.SEEK_SET 2048).2.2
  have h3 := (l9660_seek_fetches exDisk exReadmeFile Whence.SEEK_SET 2049).2.2
  exact ⟨h1.trans (by decide), h2.trans (by decide), h3.trans (by decide)⟩

/-- C19, the code at the failing input: the same four calls (read 2048 bytes
of the stream over sectors 24 and 25, read 4 bytes of a second stream, seek
the first stream to 2050, read 4 bytes of it) return L9660_OK throughout in
both builds, but the last read returns 0, 0, 0, 0 in the default build and
the extent bytes 25, 0, 0, 0 in the build with L9660_SINGLEBUFFER. -/
theorem buffering_builds_differ :
    exRunPerStream = ([L9660_OK, L9660_OK, L9660_OK, L9660_OK], [0, 0, 0, 0]) ∧
    exRunShared = ([L9660_OK, L9660_OK, L9660_OK, L9660_OK], [25, 0, 0, 0]) ∧
    (List.range' 2050 4).map (extByte exDisk 24) = [25, 0, 0, 0] := by
  decide

/-- C20, counterexample: sector 16 of the volume is read, carries the magic
CD001 at offsets 1..5 and has the type byte 0, and ISO_Check returns false. -/
theorem ISO_Check_counterexample :
    (exVolumeBoot 16).map (fun s => (magic_ok s, byteAt s 0)) = some (true, 0) ∧
    ISO_Check exVolumeBoot zeroSector = false := by
  decide

/-- C20, amended: when sector 16 is read, ISO_Check returns true if and only
if the sector has the type byte 1 at offset 0 and the magic CD001 at offsets
1..5. -/
theorem ISO_Check_iff (disk : Disk) (heap s : Sector) (hsec : disk 16 = some s) :
    ISO_Check disk heap = true ↔ (byteAt s OFF_vdesc_type = 1 ∧ magic_ok s = true) := by
  unfold ISO_Check magic_ok OFF_vdesc_type OFF_vdesc_magic
  rw [hsec]
  simp only [decide_eq_true_eq, Nat.add_zero]

/-- Witness of C20 as amended: the sample volume, whose sector 16 is a primary
volume descriptor. -/
theorem ISO_Check_iff_witness :
    ISO_Check exVolume zeroSector = true
      ↔ (byteAt exPvd OFF_vdesc_type = 1 ∧ magic_ok exPvd = true) :=
  ISO_Check_iff exVolume zeroSector exPvd rfl

/-- C21: a failed sector fetch is propagated at once and never retried or
masked.  Each of l9660_read, l9660_readdir, l9660_seek, l9660_openat and
l9660_opendirat, run with its sector-source calls traced, returns what the
operation returns; and if any call of its trace was reported as failed, then
the operation has returned L9660_EIO (whatever the bound on its loops) and
the failed call is the last call of the trace, every call before it having
succeeded; l9660_read moreover writes no count to *read, copies no bytes and
leaves the position unchanged. -/
theorem fetch_failure_propagates (disk : Disk) (f : l9660_file) (size fuel : Nat)
    (pd : Option Nat) (whence : Whence) (offset : Int) (child parent : l9660_file)
    (name : List Nat) :
    ((l9660_read_traced disk f size).1 = l9660_read disk f size ∧
      (HasFailure disk (l9660_read_traced disk f size).2 →
        (l9660_read disk f size).status = L9660_EIO ∧
        FailsLast disk (l9660_read_traced disk f size).2 ∧
        (l9660_read disk f size).read = none ∧ (l9660_read disk f size).data = [] ∧
        (l9660_read disk f size).file.position = f.position)) ∧
    ((l9660_readdir_traced disk fuel f pd).1 = l9660_readdir disk fuel f pd ∧
      (HasFailure disk (l9660_readdir_traced disk fuel f pd).2 →
        (l9660_readdir disk fuel f pd).map (fun x => x.1) = some L9660_EIO ∧
        FailsLast disk (l9660_readdir_traced disk fuel f pd).2)) ∧
    (((l9660_seek_traced disk f whence offset).1 = (l9660_seek disk f whence offset).1 ∧
        (l9660_seek_traced disk f whence offset).2.1 = (l9660_seek disk f whence offset).2) ∧
      (HasFailure disk (l9660_seek_traced disk f whence offset).2.2 →
        (l9660_seek disk f whence offset).1 = L9660_EIO ∧
        FailsLast disk (l9660_seek_traced disk f whence offset).2.2)) ∧
    ((l9660_openat_traced disk fuel child parent name).1
        = l9660_openat disk fuel child parent name ∧
      (HasFailure disk (l9660_openat_traced disk fuel child parent name).2 →
        (l9660_openat disk fuel child parent name).map (fun x => x.1) = some L9660_EIO ∧
        FailsLast disk (l9660_openat_traced disk fuel child parent name).2)) ∧
    ((l9660_opendirat_traced disk fuel child parent name).1
        = l9660_opendirat disk fuel child parent name ∧
      (HasFailure disk (l9660_opendirat_traced disk fuel child parent name).2 →
        (l9660_opendirat disk fuel child parent name).map (fun x => x.1) = some L9660_EIO ∧
        FailsLast disk (l9660_opendirat_traced disk fuel child parent name).2)) := by
  refine ⟨⟨read_traced_erase disk f size, ?_⟩, ⟨readdir_traced_erase disk fuel f pd, ?_⟩,
    ⟨seek_traced_erase disk f whence offset, ?_⟩,
    ⟨raw_traced_erase disk fuel child parent name false, ?_⟩,
    ⟨raw_traced_erase disk fuel child parent name true, ?_⟩⟩
  · intro hf
    obtain ⟨hp, hdet⟩ := read_traced_propagates disk f size
    obtain ⟨hrv, hl⟩ := propagates_failure disk _ _ hp hf
    have hst : (l9660_read_traced disk f size).1.status = L9660_EIO := Option.some.inj hrv
    obtain ⟨h1, h2, h3⟩ := hdet hst
    rw [read_traced_erase] at hst h1 h2 h3
    exact ⟨hst, hl, h1, h2, by rw [h3]⟩
  · intro hf
    obtain ⟨hrv, hl⟩ := propagates_failure disk _ _
      (readdir_traced_propagates disk fuel f pd) hf
    rw [readdir_traced_erase] at hrv
    exact ⟨hrv, hl⟩
  · intro hf
    obtain ⟨hrv, hl⟩ := propagates_failure disk _ _
      (seek_traced_propagates disk f whence offset) hf
    rw [(seek_traced_erase disk f whence offset).1] at hrv
    exact ⟨Option.some.inj hrv, hl⟩
  · intro hf
    obtain ⟨hrv, hl⟩ := propagates_failure disk _ _
      (raw_traced_propagates disk fuel child parent name false) hf
    rw [raw_traced_erase] at hrv
    exact ⟨hrv, hl⟩
  · intro hf
    obtain ⟨hrv, hl⟩ := propagates_failure disk _ _
      (raw_traced_propagates disk fuel child parent name true) hf
    rw [raw_traced_erase] at hrv
    exact ⟨hrv, hl⟩

/-- Witness of C21: looking up a missing name in the two-sector sample
directory when sector 24 cannot be read fetches sector 23, then sector 24,
and returns L9660_EIO; reading at the end of the one-sector stream when
sector 31 cannot be read returns L9660_EIO with no bytes and the position
unchanged. -/
theorem fetch_failure_propagates_witness :
    (l9660_openat_traced exDiskNo24 10 exBlank exRootLong [90]).2 = [23, 24] ∧
    (l9660_openat exDiskNo24 10 exBlank exRootLong [90]).map (fun x => x.1)
      = some L9660_EIO ∧
    FailsLast exDiskNo24 (l9660_openat_traced exDiskNo24 10 exBlank exRootLong [90]).2 ∧
    (l9660_read exDiskOnly30 exAtEnd 10).status = L9660_EIO ∧
    (l9660_read exDiskOnly30 exAtEnd 10).read = none ∧
    (l9660_read exDiskOnly30 exAtEnd 10).file.position = exAtEnd.position := by
  have h := fetch_failure_propagates exDiskNo24 exAtEnd 10 10 none Whence.SEEK_SET 0 exBlank
    exRootLong [90]
  have h2 := fetch_failure_propagates exDiskOnly30 exAtEnd 10 10 none Whence.SEEK_SET 0 exBlank
    exRootLong [90]
  obtain ⟨ha, hb⟩ := h.2.2.2.1.2 ⟨24, by decide, rfl⟩
  obtain ⟨hc, _, hd, _, he⟩ := h2.1.2 ⟨31, by decide, rfl⟩
  exact ⟨by decide, ha, hb, hc, hd, he⟩

end L9660
